import Mathlib

/-!
# Verification of the Narwhalyzer profiling runtime (`src/narwhalyzer.c`)

This file gives a shallow embedding of the runtime support library of the
Narwhalyzer instrumentation system: the section registry
(`__narwhalyzer_register_section`), the per-thread context stack with its
enter/exit protocol (`__narwhalyzer_section_enter`,
`__narwhalyzer_section_exit`), and the structure of the report printed by
`__narwhalyzer_fini`.

Machine integers are modelled as `Nat` with explicit reduction modulo `2^64`
where the C code performs `uint64_t` arithmetic (timestamp subtraction,
counter increments, cumulative-time accumulation).  The thread-local context
stack `g_context_stack[]` together with `g_context_stack_top` is modelled as
the list of its live cells (indices `0 .. top`): cells above `top` are never
read by the C code before being overwritten by a push, so they are
unobservable.  The single-word atomic operations of the C code
(`atomic_fetch_add`, compare-and-swap retry loops for min/max) are modelled
as atomic steps of an interleaving semantics over per-thread stacks and the
shared section table.
-/

set_option maxRecDepth 10000

namespace Narwhalyzer

/-- `2^64`, the modulus of `uint64_t` arithmetic. -/
def U64MOD : Nat := 2 ^ 64

/-- `UINT64_MAX`, the initial value of `min_time_ns` for a fresh section. -/
def UINT64_MAX : Nat := 2 ^ 64 - 1

/-- Capacity of the section table (`narwhalyzer.h`, cited in README). -/
def NARWHALYZER_MAX_SECTIONS : Nat := 2048

/-- Capacity of the per-thread context stack. -/
def NARWHALYZER_MAX_NESTING_DEPTH : Nat := 128

/-- `uint64_t` addition. -/
def add64 (a b : Nat) : Nat := (a + b) % U64MOD

/-- `uint64_t` subtraction (wraps around on underflow). -/
def sub64 (a b : Nat) : Nat := (a % U64MOD + (U64MOD - b % U64MOD)) % U64MOD

/-- One entry of `g_sections[]` (`narwhalyzer_section_stats_t`).  A NULL
`file` pointer is modelled as `none`. -/
structure SectionStats where
  name : String
  file : Option String
  line : Int
  entry_count : Nat
  cumulative_time_ns : Nat
  min_time_ns : Nat
  max_time_ns : Nat
  parent_index : Int
  depth : Nat
deriving Repr, DecidableEq

/-- The field values `__narwhalyzer_init`'s `memset` gives every slot of
`g_sections[]`; also used as the out-of-range default when reading the
table (counters zero, `min_time_ns` as set by registration). -/
def initStats : SectionStats :=
  { name := "", file := none, line := 0, entry_count := 0,
    cumulative_time_ns := 0, min_time_ns := UINT64_MAX, max_time_ns := 0,
    parent_index := -1, depth := 0 }

/-- One live cell of `g_context_stack[]` (`narwhalyzer_context_t`).  The
`section_index` stored by a push has been validated to be in range, so it
is kept as a `Nat`. -/
structure Context where
  section_index : Nat
  start_time_ns : Nat
  parent_context_index : Int
deriving Repr, DecidableEq

/-- Default context used for (never live-reachable) out-of-range reads. -/
def ctxDefault : Context :=
  { section_index := 0, start_time_ns := 0, parent_context_index := -1 }

/-- The loop body condition of the dedup scan in
`__narwhalyzer_register_section`:
`g_sections[i].line == line && g_sections[i].file && file &&
 strcmp(g_sections[i].file, file) == 0 && strcmp(g_sections[i].name, name) == 0`. -/
def matchesSection (s : SectionStats) (name : String) (file : Option String)
    (line : Int) : Bool :=
  s.line == line &&
  (match s.file, file with
   | some sf, some fv => sf == fv
   | _, _ => false) &&
  s.name == name

/-- The linear scan `for (i = 0; i < count; i++)` of
`__narwhalyzer_register_section`, returning the first matching index. -/
def lookupSection (sections : List SectionStats) (name : String)
    (file : Option String) (line : Int) : Option Nat :=
  match sections with
  | [] => none
  | s :: rest =>
    if matchesSection s name file line then some 0
    else (lookupSection rest name file line).map (· + 1)

/-- In-place update of one list cell (the C code mutates `g_sections[idx]`). -/
def modifyIdx : List α → Nat → (α → α) → List α
  | [], _, _ => []
  | a :: l, 0, f => f a :: l
  | a :: l, n + 1, f => a :: modifyIdx l n f

/-- Read of `g_sections[s]` (out-of-range reads yield the `memset` image). -/
def statGet (sections : List SectionStats) (s : Nat) : SectionStats :=
  sections.getD s initStats

/-- The initialization block of `__narwhalyzer_register_section` for a
freshly reserved slot (`s->name = name; ... s->parent_index = -1`). -/
def freshSection (name : String) (file : Option String) (line : Int) :
    SectionStats :=
  { name := name, file := file, line := line, entry_count := 0,
    cumulative_time_ns := 0, min_time_ns := UINT64_MAX, max_time_ns := 0,
    parent_index := -1, depth := 0 }

/-- `__narwhalyzer_register_section(name, file, line)`.  Returns the updated
table, the returned index, and whether the capacity warning was printed.
The C code's `atomic_fetch_add` immediately undone by `atomic_fetch_sub`
on overflow nets to an unchanged count. -/
def register_section (sections : List SectionStats) (name : String)
    (file : Option String) (line : Int) : List SectionStats × Int × Bool :=
  match lookupSection sections name file line with
  | some i => (sections, (i : Int), false)
  | none =>
    if NARWHALYZER_MAX_SECTIONS ≤ sections.length then
      (sections, -1, true)
    else
      (sections ++ [freshSection name file line], (sections.length : Int), false)

/-- The context `__narwhalyzer_section_enter` writes at
`g_context_stack[ctx_idx]` with `ctx_idx = stack.length`. -/
def enterCtx (stack : List Context) (now : Nat) (si : Nat) : Context :=
  { section_index := si, start_time_ns := now % U64MOD,
    parent_context_index :=
      if 0 < stack.length then (stack.length : Int) - 1 else -1 }

/-- The statistics update `__narwhalyzer_section_enter` performs on the
entered section: bump `entry_count`, record the parent relationship first
time only (`if (s->parent_index == -1 && ctx_idx > 0)`), set `depth`. -/
def enterUpdate (stack : List Context) (s : SectionStats) : SectionStats :=
  let s1 := { s with entry_count := add64 s.entry_count 1 }
  let s2 :=
    if s1.parent_index = -1 ∧ 0 < stack.length then
      { s1 with parent_index :=
          ((stack.getLastD ctxDefault).section_index : Int) }
    else s1
  { s2 with depth := stack.length }

/-- `__narwhalyzer_section_enter(section_index)` acting on the shared table
and the calling thread's live stack; returns the new table, the new stack
and the returned context id.  `++g_context_stack_top` undone by
`g_context_stack_top--` on overflow nets to an unchanged stack. -/
def section_enter (sections : List SectionStats) (stack : List Context)
    (now : Nat) (section_index : Int) :
    List SectionStats × List Context × Int :=
  if section_index < 0 ∨ (sections.length : Int) ≤ section_index then
    (sections, stack, -1)
  else if NARWHALYZER_MAX_NESTING_DEPTH ≤ stack.length then
    (sections, stack, -1)
  else
    (modifyIdx sections section_index.toNat (enterUpdate stack),
     stack ++ [enterCtx stack now section_index.toNat],
     (stack.length : Int))

/-- The statistics update `__narwhalyzer_section_exit` performs on the
exited context's section: accumulate `elapsed`, then the single-threaded
image of the two compare-and-swap retry loops for the extrema. -/
def exitUpdate (elapsed : Nat) (s : SectionStats) : SectionStats :=
  let s1 := { s with cumulative_time_ns := add64 s.cumulative_time_ns elapsed }
  let s2 :=
    if elapsed < s1.min_time_ns then { s1 with min_time_ns := elapsed } else s1
  if s2.max_time_ns < elapsed then { s2 with max_time_ns := elapsed } else s2

/-- `__narwhalyzer_section_exit(context_index)` acting on the shared table
and the calling thread's live stack. -/
def section_exit (sections : List SectionStats) (stack : List Context)
    (now : Nat) (context_index : Int) : List SectionStats × List Context :=
  if context_index < 0 ∨ (stack.length : Int) - 1 < context_index then
    (sections, stack)
  else
    let ctx := stack.getD context_index.toNat ctxDefault
    (modifyIdx sections ctx.section_index
       (exitUpdate (sub64 now ctx.start_time_ns)),
     if context_index = (stack.length : Int) - 1 then stack.dropLast else stack)

/-! ## Interleaving trace semantics

Calls into the runtime from `T` threads.  Each call is one atomic step of
the interleaving (the C code's statistics updates are single-word atomics
whose call-level effect is captured by the sequential functions above;
each thread owns its `__thread` context stack exclusively). -/

/-- One runtime API call.  `now` is the value `__narwhalyzer_get_timestamp_ns`
returns during that call. -/
inductive Op (T : Nat) where
  | reg (name : String) (file : Option String) (line : Int)
  | enter (tid : Fin T) (now : Nat) (sectionIndex : Int)
  | exit (tid : Fin T) (now : Nat) (contextIndex : Int)
deriving Repr, DecidableEq

/-- Shared section table plus the per-thread context stacks. -/
structure State (T : Nat) where
  sections : List SectionStats
  threadStacks : Fin T → List Context

/-- State after `__narwhalyzer_init`: empty table, every thread's
`g_context_stack_top == -1`. -/
def initState (T : Nat) : State T := ⟨[], fun _ => []⟩

/-- Observable event of one step: a registration's returned index, a
successful enter's section, or a statistics-updating exit's section and
the elapsed time it accumulated. -/
inductive Ev where
  | registered (name : String) (file : Option String) (line : Int) (idx : Int)
  | entered (s : Nat)
  | completed (s : Nat) (elapsed : Nat)
deriving Repr, DecidableEq

/-- Whether `__narwhalyzer_section_exit(contextIndex)` takes its
statistics-updating branch on `stack`. -/
def exitHits (stack : List Context) (contextIndex : Int) : Bool :=
  !(contextIndex < 0 ∨ (stack.length : Int) - 1 < contextIndex)

/-- One atomic API call: resulting state and emitted event. -/
def step (σ : State T) : Op T → State T × Option Ev
  | .reg name file line =>
    let r := register_section σ.sections name file line
    (⟨r.1, σ.threadStacks⟩, some (.registered name file line r.2.1))
  | .enter tid now si =>
    let r := section_enter σ.sections (σ.threadStacks tid) now si
    (⟨r.1, Function.update σ.threadStacks tid r.2.1⟩,
     if 0 ≤ r.2.2 then some (.entered si.toNat) else none)
  | .exit tid now ci =>
    let r := section_exit σ.sections (σ.threadStacks tid) now ci
    (⟨r.1, Function.update σ.threadStacks tid r.2⟩,
     if exitHits (σ.threadStacks tid) ci then
       some (.completed ((σ.threadStacks tid).getD ci.toNat ctxDefault).section_index
               (sub64 now ((σ.threadStacks tid).getD ci.toNat ctxDefault).start_time_ns))
     else none)

/-- Run a call sequence, collecting the emitted events. -/
def runE (σ : State T) : List (Op T) → State T × List Ev
  | [] => (σ, [])
  | op :: ops =>
    let o := step σ op
    let r := runE o.1 ops
    (r.1, o.2.toList ++ r.2)

/-- Number of successful enters of section `s` among the events. -/
def countEntered (evs : List Ev) (s : Nat) : Nat :=
  evs.countP fun e => match e with | .entered s' => s' == s | _ => false

/-- Elapsed durations accumulated into section `s` by exits, in order. -/
def completedList (evs : List Ev) (s : Nat) : List Nat :=
  evs.filterMap fun e =>
    match e with
    | .completed s' d => if s' == s then some d else none
    | _ => none

/-- A step that keeps the run balanced: registrations are free; an enter
must succeed; an exit must name exactly the current top of its thread's
stack (so it pops its own context). -/
def popOK (σ : State T) : Op T → Bool
  | .reg _ _ _ => true
  | .enter tid _ si =>
    decide (0 ≤ si) && decide (si < (σ.sections.length : Int)) &&
    decide ((σ.threadStacks tid).length < NARWHALYZER_MAX_NESTING_DEPTH)
  | .exit tid _ ci =>
    !(σ.threadStacks tid).isEmpty && (ci == ((σ.threadStacks tid).length : Int) - 1)

/-- Every step of the run is balanced (enter succeeds, exit pops the top). -/
def allPopping : State T → List (Op T) → Bool
  | _, [] => true
  | σ, op :: ops => popOK σ op && allPopping (step σ op).1 ops

/-- Balanced run: each enter's returned context id is passed to exactly one
matching exit in stack order, and every activation completes (all stacks
end empty). -/
def isBalanced (σ : State T) (ops : List (Op T)) : Bool :=
  allPopping σ ops &&
  (List.finRange T).all fun t => ((runE σ ops).1.threadStacks t).isEmpty

/-- Run from the initial state. -/
def runFromInit (T : Nat) (ops : List (Op T)) : State T × List Ev :=
  runE (initState T) ops

/-- Measured elapsed durations of the completed activations of section `s`
in a run from the initial state. -/
def durationsOf (T : Nat) (ops : List (Op T)) (s : Nat) : List Nat :=
  completedList (runFromInit T ops).2 s

/-! ## The report (`__narwhalyzer_fini`)

The report's structure is modelled as a list of abstract items; pure text
formatting (`format_time`, column widths, box glyphs) carries no claim
content and is not modelled. -/

/-- One printed element of the report. -/
inductive ReportItem where
  | noSectionsMsg
  | reportBanner
  | flatHeader
  | flatRow (idx : Nat)
  | hierHeader
  | hierNode (idx : Nat)
  | detailsHeader
  | detailRow (idx : Nat)
  | endBanner
deriving Repr, DecidableEq

/-- `compare_sections_by_time`: sort comparator over indices into the
section table (descending cumulative time, `0` on ties). -/
def compare_sections_by_time (sections : List SectionStats) (ia ib : Nat) : Int :=
  let time_a := (statGet sections ia).cumulative_time_ns
  let time_b := (statGet sections ib).cumulative_time_ns
  if time_a < time_b then 1 else if time_b < time_a then -1 else 0

/-- What `qsort(sorted_indices, ...)` guarantees about its output: a
permutation of the identity index array `0 .. count-1` that is ordered
according to the comparator.  The relative order of elements comparing
equal is unspecified by `qsort`, so this is a relation, not a function. -/
def IsQsortOutput (sections : List SectionStats) (output : List Nat) : Prop :=
  output.Perm (List.range sections.length) ∧
  output.Pairwise fun a b => compare_sections_by_time sections a b ≤ 0

/-- The rows of the flat summary table: the loop over `sorted_indices`,
skipping `entry_count == 0` sections. -/
def flatRows (sections : List SectionStats) (sorted : List Nat) : List Nat :=
  sorted.filter fun i => (statGet sections i).entry_count ≠ 0

/-- `print_flat_summary`, given `qsort`'s output: items printed. -/
def print_flat_summary (sections : List SectionStats) (sorted : List Nat) :
    List ReportItem :=
  if sections.length = 0 then [.noSectionsMsg]
  else .reportBanner :: .flatHeader :: (flatRows sections sorted).map .flatRow

/-- The children attached to node `i` when building the hierarchy:
sections `j` whose `parent_index` equals `i`, in ascending `j` (the build
loop walks `j` upward, so child lists are in index order). -/
def childrenOf (sections : List SectionStats) (i : Nat) : List Nat :=
  (List.range sections.length).filter fun j =>
    (statGet sections j).parent_index = (i : Int)

/-- `print_hierarchy_recursive` from node `i`: the node itself followed by
the subtrees of its children (no entry-count filtering in the recursion).
`fuel` bounds the recursion depth; `sections.length + 1` suffices for
every tree reachable from a root. -/
def subtreeNodes (sections : List SectionStats) : Nat → Nat → List Nat
  | 0, _ => []
  | fuel + 1, i => i :: (childrenOf sections i).flatMap (subtreeNodes sections fuel)

/-- The roots of the hierarchy: sections with `parent_index < 0`, in index
order. -/
def rootSections (sections : List SectionStats) : List Nat :=
  (List.range sections.length).filter fun i => (statGet sections i).parent_index < 0

/-- `print_hierarchy_view`: the header, then for each root with
`entry_count != 0` its whole subtree. -/
def print_hierarchy_view (sections : List SectionStats) : List ReportItem :=
  if sections.length = 0 then []
  else .hierHeader ::
    (((rootSections sections).filter fun r => (statGet sections r).entry_count ≠ 0).flatMap
      fun r => (subtreeNodes sections (sections.length + 1) r).map .hierNode)

/-- `print_section_details`: the header, then one entry per section with
`entry_count != 0`, in index order. -/
def print_section_details (sections : List SectionStats) : List ReportItem :=
  .detailsHeader ::
    (((List.range sections.length).filter fun i =>
        (statGet sections i).entry_count ≠ 0).map .detailRow)

/-- `__narwhalyzer_fini` after winning the report-once CAS: with
`section_count == 0` it returns before printing anything; otherwise it
prints the three report parts and the end banner.  `sorted` stands for the
index order `qsort` produced. -/
def fini_output (sections : List SectionStats) (sorted : List Nat) :
    List ReportItem :=
  if sections.length = 0 then []
  else
    print_flat_summary sections sorted ++
    print_hierarchy_view sections ++
    print_section_details sections ++ [.endBanner]

/-! ## Basic lemmas about the embedded operations -/

theorem U64MOD_pos : 0 < U64MOD := by norm_num [U64MOD]

theorem add64_lt (a b : Nat) : add64 a b < U64MOD := Nat.mod_lt _ U64MOD_pos

theorem sub64_lt (a b : Nat) : sub64 a b < U64MOD := Nat.mod_lt _ U64MOD_pos

theorem UINT64_MAX_lt : UINT64_MAX < U64MOD := by norm_num [UINT64_MAX, U64MOD]

theorem length_modifyIdx (l : List α) (i : Nat) (f : α → α) :
    (modifyIdx l i f).length = l.length := by
  induction l generalizing i with
  | nil => rfl
  | cons a l ih =>
    cases i with
    | zero => rfl
    | succ n => simp [modifyIdx, ih]

theorem getD_modifyIdx (l : List α) (i s : Nat) (f : α → α) (d : α) :
    (modifyIdx l i f).getD s d =
      if s = i ∧ i < l.length then f (l.getD s d) else l.getD s d := by
  induction l generalizing i s with
  | nil => simp [modifyIdx]
  | cons a l ih =>
    cases i with
    | zero =>
      cases s with
      | zero => simp [modifyIdx]
      | succ m => simp [modifyIdx]
    | succ n =>
      cases s with
      | zero => simp [modifyIdx]
      | succ m =>
        simp only [modifyIdx, List.getD_cons_succ, ih, List.length_cons]
        by_cases h : m = n ∧ n < l.length
        · rw [if_pos h, if_pos ⟨by omega, by omega⟩]
        · rw [if_neg h, if_neg (by omega)]

theorem statGet_modifyIdx (l : List SectionStats) (i s : Nat)
    (f : SectionStats → SectionStats) :
    statGet (modifyIdx l i f) s =
      if s = i ∧ i < l.length then f (statGet l s) else statGet l s :=
  getD_modifyIdx l i s f initStats

theorem statGet_out_of_range (l : List SectionStats) (s : Nat)
    (h : l.length ≤ s) : statGet l s = initStats :=
  List.getD_eq_default _ _ h

theorem statGet_append_one (l : List SectionStats) (x : SectionStats) (s : Nat) :
    statGet (l ++ [x]) s =
      if s < l.length then statGet l s
      else if s = l.length then x else initStats := by
  by_cases h : s < l.length
  · rw [if_pos h]
    exact List.getD_append _ _ _ _ h
  · rw [if_neg h]
    by_cases h2 : s = l.length
    · subst h2
      rw [if_pos rfl]
      simp [statGet]
    · rw [if_neg h2]
      refine List.getD_eq_default _ _ ?_
      simp only [List.length_append, List.length_singleton]
      omega

theorem matchesSection_file_none (s : SectionStats) (n : String) (li : Int) :
    matchesSection s n none li = false := by
  cases h : s.file <;> simp [matchesSection, h]

theorem lookupSection_eq_none_iff (l : List SectionStats) (n : String)
    (f : Option String) (li : Int) :
    lookupSection l n f li = none ↔ ∀ s ∈ l, matchesSection s n f li = false := by
  induction l with
  | nil => simp [lookupSection]
  | cons a l ih =>
    by_cases h : matchesSection a n f li <;>
      simp [lookupSection, h, ih, Option.map_eq_none']

theorem lookupSection_some (l : List SectionStats) (n : String)
    (f : Option String) (li : Int) (i : Nat)
    (h : lookupSection l n f li = some i) :
    i < l.length ∧ matchesSection (l.getD i initStats) n f li = true := by
  induction l generalizing i with
  | nil => simp [lookupSection] at h
  | cons a l ih =>
    by_cases ha : matchesSection a n f li
    · simp only [lookupSection, if_pos ha, Option.some.injEq] at h
      subst h
      exact ⟨by simp, by simpa using ha⟩
    · simp only [lookupSection, if_neg ha, Option.map_eq_some'] at h
      obtain ⟨j, hj, rfl⟩ := h
      obtain ⟨h1, h2⟩ := ih j hj
      exact ⟨by simpa using h1, by simpa using h2⟩

theorem enterUpdate_entry (stack : List Context) (s : SectionStats) :
    (enterUpdate stack s).entry_count = add64 s.entry_count 1 := by
  simp only [enterUpdate]
  split <;> rfl

theorem enterUpdate_cum (stack : List Context) (s : SectionStats) :
    (enterUpdate stack s).cumulative_time_ns = s.cumulative_time_ns := by
  simp only [enterUpdate]
  split <;> rfl

theorem enterUpdate_min (stack : List Context) (s : SectionStats) :
    (enterUpdate stack s).min_time_ns = s.min_time_ns := by
  simp only [enterUpdate]
  split <;> rfl

theorem enterUpdate_max (stack : List Context) (s : SectionStats) :
    (enterUpdate stack s).max_time_ns = s.max_time_ns := by
  simp only [enterUpdate]
  split <;> rfl

theorem enterUpdate_name (stack : List Context) (s : SectionStats) :
    (enterUpdate stack s).name = s.name := by
  simp only [enterUpdate]
  split <;> rfl

theorem enterUpdate_file (stack : List Context) (s : SectionStats) :
    (enterUpdate stack s).file = s.file := by
  simp only [enterUpdate]
  split <;> rfl

theorem enterUpdate_line (stack : List Context) (s : SectionStats) :
    (enterUpdate stack s).line = s.line := by
  simp only [enterUpdate]
  split <;> rfl

theorem enterUpdate_parent (stack : List Context) (s : SectionStats) :
    (enterUpdate stack s).parent_index =
      if s.parent_index = -1 ∧ 0 < stack.length then
        ((stack.getLastD ctxDefault).section_index : Int)
      else s.parent_index := by
  simp only [enterUpdate]
  split <;> rfl

theorem exitUpdate_entry (e : Nat) (s : SectionStats) :
    (exitUpdate e s).entry_count = s.entry_count := by
  simp only [exitUpdate]
  split <;> split <;> rfl

theorem exitUpdate_cum (e : Nat) (s : SectionStats) :
    (exitUpdate e s).cumulative_time_ns = add64 s.cumulative_time_ns e := by
  simp only [exitUpdate]
  split <;> split <;> rfl

theorem exitUpdate_min (e : Nat) (s : SectionStats) :
    (exitUpdate e s).min_time_ns = Nat.min s.min_time_ns e := by
  simp only [exitUpdate]
  by_cases h : e < s.min_time_ns
  · rw [if_pos h]
    have : Nat.min s.min_time_ns e = e := Nat.min_eq_right (Nat.le_of_lt h)
    split <;> simp [this]
  · rw [if_neg h]
    have : Nat.min s.min_time_ns e = s.min_time_ns :=
      Nat.min_eq_left (Nat.le_of_not_lt h)
    split <;> simp [this]

theorem exitUpdate_max (e : Nat) (s : SectionStats) :
    (exitUpdate e s).max_time_ns = Nat.max s.max_time_ns e := by
  simp only [exitUpdate]
  by_cases h : s.max_time_ns < e
  · have hmax : Nat.max s.max_time_ns e = e := Nat.max_eq_right (Nat.le_of_lt h)
    split <;> simp [h, hmax]
  · have hmax : Nat.max s.max_time_ns e = s.max_time_ns :=
      Nat.max_eq_left (Nat.le_of_not_lt h)
    split <;> simp [h, hmax]

theorem exitUpdate_parent (e : Nat) (s : SectionStats) :
    (exitUpdate e s).parent_index = s.parent_index := by
  simp only [exitUpdate]
  split <;> split <;> rfl

theorem exitUpdate_name (e : Nat) (s : SectionStats) :
    (exitUpdate e s).name = s.name := by
  simp only [exitUpdate]
  split <;> split <;> rfl

theorem exitUpdate_file (e : Nat) (s : SectionStats) :
    (exitUpdate e s).file = s.file := by
  simp only [exitUpdate]
  split <;> split <;> rfl

theorem exitUpdate_line (e : Nat) (s : SectionStats) :
    (exitUpdate e s).line = s.line := by
  simp only [exitUpdate]
  split <;> split <;> rfl

/-! ## Branch characterizations of the three entry points -/

theorem register_section_hit {sections : List SectionStats} {n : String}
    {f : Option String} {li : Int} {i : Nat}
    (h : lookupSection sections n f li = some i) :
    register_section sections n f li = (sections, (i : Int), false) := by
  simp [register_section, h]

theorem register_section_full {sections : List SectionStats} {n : String}
    {f : Option String} {li : Int}
    (h : lookupSection sections n f li = none)
    (hlen : NARWHALYZER_MAX_SECTIONS ≤ sections.length) :
    register_section sections n f li = (sections, -1, true) := by
  simp [register_section, h, hlen]

theorem register_section_alloc {sections : List SectionStats} {n : String}
    {f : Option String} {li : Int}
    (h : lookupSection sections n f li = none)
    (hlen : sections.length < NARWHALYZER_MAX_SECTIONS) :
    register_section sections n f li =
      (sections ++ [freshSection n f li], (sections.length : Int), false) := by
  simp [register_section, h, Nat.not_le.mpr hlen]

theorem register_section_cases (sections : List SectionStats) (n : String)
    (f : Option String) (li : Int) :
    (register_section sections n f li).1 = sections ∨
    (register_section sections n f li).1 = sections ++ [freshSection n f li] := by
  rcases h : lookupSection sections n f li with _ | i
  · by_cases hlen : NARWHALYZER_MAX_SECTIONS ≤ sections.length
    · rw [register_section_full h hlen]
      exact Or.inl rfl
    · rw [register_section_alloc h (Nat.not_le.mp hlen)]
      exact Or.inr rfl
  · rw [register_section_hit h]
    exact Or.inl rfl

theorem statGet_append_fresh_counters (sections : List SectionStats)
    (n : String) (f : Option String) (li : Int) (s : Nat) :
    (statGet (sections ++ [freshSection n f li]) s).entry_count
        = (statGet sections s).entry_count
  ∧ (statGet (sections ++ [freshSection n f li]) s).cumulative_time_ns
        = (statGet sections s).cumulative_time_ns
  ∧ (statGet (sections ++ [freshSection n f li]) s).min_time_ns
        = (statGet sections s).min_time_ns
  ∧ (statGet (sections ++ [freshSection n f li]) s).max_time_ns
        = (statGet sections s).max_time_ns := by
  rw [statGet_append_one]
  by_cases h1 : s < sections.length
  · rw [if_pos h1]
    exact ⟨rfl, rfl, rfl, rfl⟩
  · rw [if_neg h1]
    have hge : sections.length ≤ s := Nat.le_of_not_lt h1
    rw [statGet_out_of_range sections s hge]
    by_cases h2 : s = sections.length
    · rw [if_pos h2]
      exact ⟨rfl, rfl, rfl, rfl⟩
    · rw [if_neg h2]
      exact ⟨rfl, rfl, rfl, rfl⟩

theorem register_section_counters (sections : List SectionStats) (n : String)
    (f : Option String) (li : Int) (s : Nat) :
    (statGet (register_section sections n f li).1 s).entry_count
        = (statGet sections s).entry_count
  ∧ (statGet (register_section sections n f li).1 s).cumulative_time_ns
        = (statGet sections s).cumulative_time_ns
  ∧ (statGet (register_section sections n f li).1 s).min_time_ns
        = (statGet sections s).min_time_ns
  ∧ (statGet (register_section sections n f li).1 s).max_time_ns
        = (statGet sections s).max_time_ns := by
  rcases register_section_cases sections n f li with h | h <;> rw [h]
  · exact ⟨rfl, rfl, rfl, rfl⟩
  · exact statGet_append_fresh_counters sections n f li s

theorem section_enter_invalid {sections : List SectionStats}
    {stack : List Context} {now : Nat} {si : Int}
    (h : si < 0 ∨ (sections.length : Int) ≤ si) :
    section_enter sections stack now si = (sections, stack, -1) := by
  simp only [section_enter, if_pos h]

theorem section_enter_deep {sections : List SectionStats}
    {stack : List Context} {now : Nat} {si : Int}
    (h : ¬(si < 0 ∨ (sections.length : Int) ≤ si))
    (h2 : NARWHALYZER_MAX_NESTING_DEPTH ≤ stack.length) :
    section_enter sections stack now si = (sections, stack, -1) := by
  simp only [section_enter, if_neg h, if_pos h2]

theorem section_enter_ok {sections : List SectionStats}
    {stack : List Context} {now : Nat} {si : Int}
    (h : ¬(si < 0 ∨ (sections.length : Int) ≤ si))
    (h2 : stack.length < NARWHALYZER_MAX_NESTING_DEPTH) :
    section_enter sections stack now si =
      (modifyIdx sections si.toNat (enterUpdate stack),
       stack ++ [enterCtx stack now si.toNat],
       (stack.length : Int)) := by
  simp only [section_enter, if_neg h, if_neg (Nat.not_le.mpr h2)]

theorem section_exit_miss {sections : List SectionStats}
    {stack : List Context} {now : Nat} {ci : Int}
    (h : ci < 0 ∨ (stack.length : Int) - 1 < ci) :
    section_exit sections stack now ci = (sections, stack) := by
  simp only [section_exit, if_pos h]

theorem section_exit_hit {sections : List SectionStats}
    {stack : List Context} {now : Nat} {ci : Int}
    (h : ¬(ci < 0 ∨ (stack.length : Int) - 1 < ci)) :
    section_exit sections stack now ci =
      (modifyIdx sections ((stack.getD ci.toNat ctxDefault).section_index)
         (exitUpdate (sub64 now (stack.getD ci.toNat ctxDefault).start_time_ns)),
       if ci = (stack.length : Int) - 1 then stack.dropLast else stack) := by
  simp only [section_exit, if_neg h]

theorem exitHits_true_iff (stack : List Context) (ci : Int) :
    exitHits stack ci = true ↔ ¬(ci < 0 ∨ (stack.length : Int) - 1 < ci) := by
  simp [exitHits]

theorem exitHits_in_range {stack : List Context} {ci : Int}
    (h : ¬(ci < 0 ∨ (stack.length : Int) - 1 < ci)) :
    ci.toNat < stack.length := by
  omega

theorem getD_mem_of_lt (l : List α) (n : Nat) (d : α) (h : n < l.length) :
    l.getD n d ∈ l := by
  rw [List.getD_eq_getElem l d h]
  exact l.getElem_mem h

/-! ## Event-list accounting helpers -/

theorem countEntered_append (a b : List Ev) (s : Nat) :
    countEntered (a ++ b) s = countEntered a s + countEntered b s :=
  List.countP_append _ _ _

theorem countEntered_registered (n : String) (f : Option String) (li : Int)
    (i : Int) (s : Nat) : countEntered [.registered n f li i] s = 0 := rfl

theorem countEntered_completed (s' e s : Nat) :
    countEntered [.completed s' e] s = 0 := rfl

theorem countEntered_entered (s' s : Nat) :
    countEntered [.entered s'] s = if s' = s then 1 else 0 := by
  by_cases h : s' = s <;>
    simp [countEntered, List.countP, List.countP.go, h, Bool.cond_eq_ite]

theorem completedList_append (a b : List Ev) (s : Nat) :
    completedList (a ++ b) s = completedList a s ++ completedList b s :=
  List.filterMap_append _ _ _

theorem completedList_registered (n : String) (f : Option String) (li : Int)
    (i : Int) (s : Nat) : completedList [.registered n f li i] s = [] := rfl

theorem completedList_entered (s' s : Nat) :
    completedList [.entered s'] s = [] := rfl

theorem completedList_completed (s' e s : Nat) :
    completedList [.completed s' e] s = if s' = s then [e] else [] := by
  by_cases h : s' = s <;> simp [completedList, h]

/-! ## Run invariants -/

/-- Every context on any thread's stack names a registered section (enter
validates the index before pushing, and the table never shrinks). -/
def StackInv (σ : State T) : Prop :=
  ∀ t : Fin T, ∀ c ∈ σ.threadStacks t, c.section_index < σ.sections.length

/-- All aggregate counters are `uint64_t` values (below `2^64`). -/
def CounterInv (sections : List SectionStats) : Prop :=
  ∀ s : Nat,
    (statGet sections s).entry_count < U64MOD ∧
    (statGet sections s).cumulative_time_ns < U64MOD ∧
    (statGet sections s).min_time_ns < U64MOD ∧
    (statGet sections s).max_time_ns < U64MOD

theorem stackInv_init (T : Nat) : StackInv (initState T) := by
  intro t c hc
  simp [initState] at hc

theorem counterInv_init (T : Nat) : CounterInv (initState T).sections := by
  intro s
  have : statGet (initState T).sections s = initStats := by
    simp [initState, statGet]
  rw [this]
  exact ⟨U64MOD_pos, U64MOD_pos, UINT64_MAX_lt, U64MOD_pos⟩

theorem step_stackInv {T : Nat} (σ : State T) (op : Op T) (h : StackInv σ) :
    StackInv (step σ op).1 := by
  cases op with
  | reg n f li =>
    intro t c hc
    simp only [step] at hc ⊢
    have hlen : σ.sections.length ≤ (register_section σ.sections n f li).1.length := by
      rcases register_section_cases σ.sections n f li with hh | hh <;> simp [hh]
    exact Nat.lt_of_lt_of_le (h t c hc) hlen
  | enter t now si =>
    by_cases hv : si < 0 ∨ (σ.sections.length : Int) ≤ si
    · intro u c hc
      simp only [step, section_enter_invalid hv] at hc ⊢
      rw [Function.update_eq_self] at hc
      exact h u c hc
    · by_cases hf : NARWHALYZER_MAX_NESTING_DEPTH ≤ (σ.threadStacks t).length
      · intro u c hc
        simp only [step, section_enter_deep hv hf] at hc ⊢
        rw [Function.update_eq_self] at hc
        exact h u c hc
      · intro u c hc
        have hfl := Nat.lt_of_not_le hf
        simp only [step, section_enter_ok hv hfl] at hc ⊢
        rw [length_modifyIdx]
        by_cases hu : u = t
        · subst hu
          rw [Function.update_same] at hc
          rcases List.mem_append.mp hc with hc1 | hc2
          · exact h u c hc1
          · have : c = enterCtx (σ.threadStacks u) now si.toNat :=
              List.mem_singleton.mp hc2
            subst this
            simp only [enterCtx]
            omega
        · rw [Function.update_noteq hu] at hc
          exact h u c hc
  | exit t now ci =>
    by_cases hm : ci < 0 ∨ ((σ.threadStacks t).length : Int) - 1 < ci
    · intro u c hc
      simp only [step, section_exit_miss hm] at hc ⊢
      rw [Function.update_eq_self] at hc
      exact h u c hc
    · intro u c hc
      simp only [step, section_exit_hit hm] at hc ⊢
      rw [length_modifyIdx]
      by_cases hu : u = t
      · subst hu
        rw [Function.update_same] at hc
        by_cases hp : ci = ((σ.threadStacks u).length : Int) - 1
        · rw [if_pos hp] at hc
          exact h u c ((List.dropLast_sublist _).subset hc)
        · rw [if_neg hp] at hc
          exact h u c hc
      · rw [Function.update_noteq hu] at hc
        exact h u c hc

theorem step_counterInv {T : Nat} (σ : State T) (op : Op T)
    (h : CounterInv σ.sections) : CounterInv (step σ op).1.sections := by
  intro s
  obtain ⟨h1, h2, h3, h4⟩ := h s
  cases op with
  | reg n f li =>
    obtain ⟨e1, e2, e3, e4⟩ := register_section_counters σ.sections n f li s
    simp only [step]
    rw [e1, e2, e3, e4]
    exact ⟨h1, h2, h3, h4⟩
  | enter t now si =>
    by_cases hv : si < 0 ∨ (σ.sections.length : Int) ≤ si
    · simp only [step, section_enter_invalid hv]
      exact ⟨h1, h2, h3, h4⟩
    · by_cases hf : NARWHALYZER_MAX_NESTING_DEPTH ≤ (σ.threadStacks t).length
      · simp only [step, section_enter_deep hv hf]
        exact ⟨h1, h2, h3, h4⟩
      · simp only [step, section_enter_ok hv (Nat.lt_of_not_le hf)]
        rw [statGet_modifyIdx]
        by_cases hc : s = si.toNat ∧ si.toNat < σ.sections.length
        · rw [if_pos hc, enterUpdate_entry, enterUpdate_cum, enterUpdate_min,
            enterUpdate_max]
          exact ⟨add64_lt _ _, h2, h3, h4⟩
        · rw [if_neg hc]
          exact ⟨h1, h2, h3, h4⟩
  | exit t now ci =>
    by_cases hm : ci < 0 ∨ ((σ.threadStacks t).length : Int) - 1 < ci
    · simp only [step, section_exit_miss hm]
      exact ⟨h1, h2, h3, h4⟩
    · simp only [step, section_exit_hit hm]
      rw [statGet_modifyIdx]
      by_cases hc : s = ((σ.threadStacks t).getD ci.toNat ctxDefault).section_index ∧
          ((σ.threadStacks t).getD ci.toNat ctxDefault).section_index < σ.sections.length
      · rw [if_pos hc, exitUpdate_entry, exitUpdate_cum, exitUpdate_min,
          exitUpdate_max]
        refine ⟨h1, add64_lt _ _, ?_, ?_⟩
        · exact Nat.lt_of_le_of_lt (Nat.min_le_left _ _) h3
        · exact Nat.max_lt.mpr ⟨h4, sub64_lt _ _⟩
      · rw [if_neg hc]
        exact ⟨h1, h2, h3, h4⟩

theorem counters_nil_list (a : SectionStats) (s : Nat)
    (h1 : a.entry_count < U64MOD) (h2 : a.cumulative_time_ns < U64MOD) :
    a.entry_count = (a.entry_count + countEntered [] s) % U64MOD ∧
    a.cumulative_time_ns
      = (a.cumulative_time_ns + (completedList [] s).sum) % U64MOD ∧
    a.min_time_ns = (completedList [] s).foldl Nat.min a.min_time_ns ∧
    a.max_time_ns = (completedList [] s).foldl Nat.max a.max_time_ns := by
  refine ⟨?_, ?_, rfl, rfl⟩
  · show a.entry_count = (a.entry_count + 0) % U64MOD
    rw [Nat.add_zero, Nat.mod_eq_of_lt h1]
  · show a.cumulative_time_ns = (a.cumulative_time_ns + List.sum []) % U64MOD
    rw [List.sum_nil, Nat.add_zero, Nat.mod_eq_of_lt h2]

/-- Per-step accounting: the four aggregate counters of every section move
exactly as the emitted event says. -/
theorem step_counters {T : Nat} (σ : State T) (op : Op T)
    (hstk : StackInv σ) (hctr : CounterInv σ.sections) (s : Nat) :
    (statGet (step σ op).1.sections s).entry_count
        = ((statGet σ.sections s).entry_count
            + countEntered (step σ op).2.toList s) % U64MOD ∧
    (statGet (step σ op).1.sections s).cumulative_time_ns
        = ((statGet σ.sections s).cumulative_time_ns
            + (completedList (step σ op).2.toList s).sum) % U64MOD ∧
    (statGet (step σ op).1.sections s).min_time_ns
        = (completedList (step σ op).2.toList s).foldl Nat.min
            (statGet σ.sections s).min_time_ns ∧
    (statGet (step σ op).1.sections s).max_time_ns
        = (completedList (step σ op).2.toList s).foldl Nat.max
            (statGet σ.sections s).max_time_ns := by
  obtain ⟨h1, h2, h3, h4⟩ := hctr s
  cases op with
  | reg n f li =>
    obtain ⟨e1, e2, e3, e4⟩ := register_section_counters σ.sections n f li s
    simp only [step, Option.toList_some]
    rw [e1, e2, e3, e4, countEntered_registered, completedList_registered]
    exact counters_nil_list _ s h1 h2 |>.imp id (fun x => x)
  | enter t now si =>
    by_cases hv : si < 0 ∨ (σ.sections.length : Int) ≤ si
    · simp only [step, section_enter_invalid hv]
      rw [if_neg (by omega : ¬(0 : Int) ≤ -1)]
      simp only [Option.toList_none]
      exact counters_nil_list _ s h1 h2
    · by_cases hf : NARWHALYZER_MAX_NESTING_DEPTH ≤ (σ.threadStacks t).length
      · simp only [step, section_enter_deep hv hf]
        rw [if_neg (by omega : ¬(0 : Int) ≤ -1)]
        simp only [Option.toList_none]
        exact counters_nil_list _ s h1 h2
      · simp only [step, section_enter_ok hv (Nat.lt_of_not_le hf)]
        rw [if_pos (by positivity : (0 : Int) ≤ ((σ.threadStacks t).length : Int))]
        simp only [Option.toList_some]
        rw [statGet_modifyIdx, countEntered_entered, completedList_entered]
        have hsl : si.toNat < σ.sections.length := by omega
        by_cases hs : s = si.toNat
        · rw [if_pos ⟨hs, hsl⟩, if_pos hs.symm, enterUpdate_entry,
            enterUpdate_cum, enterUpdate_min, enterUpdate_max]
          refine ⟨rfl, ?_, rfl, rfl⟩
          show _ = (_ + List.sum []) % U64MOD
          rw [List.sum_nil, Nat.add_zero, Nat.mod_eq_of_lt h2]
        · rw [if_neg (fun hh => hs hh.1), if_neg (fun hh => hs hh.symm)]
          exact counters_nil_list _ s h1 h2
  | exit t now ci =>
    by_cases hm : ci < 0 ∨ ((σ.threadStacks t).length : Int) - 1 < ci
    · simp only [step, section_exit_miss hm]
      rw [if_neg (by rw [exitHits_true_iff]; exact fun hh => hh hm)]
      simp only [Option.toList_none]
      exact counters_nil_list _ s h1 h2
    · simp only [step, section_exit_hit hm]
      rw [if_pos ((exitHits_true_iff _ _).mpr hm)]
      simp only [Option.toList_some]
      have hci : ci.toNat < (σ.threadStacks t).length := exitHits_in_range hm
      have hsec : ((σ.threadStacks t).getD ci.toNat ctxDefault).section_index
          < σ.sections.length :=
        hstk t _ (getD_mem_of_lt _ _ _ hci)
      rw [statGet_modifyIdx, countEntered_completed, completedList_completed]
      by_cases hs : s = ((σ.threadStacks t).getD ci.toNat ctxDefault).section_index
      · rw [if_pos ⟨hs, hsec⟩, if_pos hs.symm, exitUpdate_entry, exitUpdate_cum,
          exitUpdate_min, exitUpdate_max]
        refine ⟨?_, rfl, rfl, rfl⟩
        rw [Nat.add_zero, Nat.mod_eq_of_lt h1]
      · rw [if_neg (fun hh => hs hh.1), if_neg (fun hh => hs hh.symm)]
        exact counters_nil_list _ s h1 h2

/-! ## Run-level accounting -/

theorem runE_cons {T : Nat} (σ : State T) (op : Op T) (ops : List (Op T)) :
    runE σ (op :: ops) =
      ((runE (step σ op).1 ops).1,
       (step σ op).2.toList ++ (runE (step σ op).1 ops).2) := rfl

theorem runE_stackInv {T : Nat} (ops : List (Op T)) :
    ∀ σ : State T, StackInv σ → StackInv (runE σ ops).1 := by
  induction ops with
  | nil => exact fun σ h => h
  | cons op ops ih => exact fun σ h => ih _ (step_stackInv σ op h)

theorem runE_counterInv {T : Nat} (ops : List (Op T)) :
    ∀ σ : State T, CounterInv σ.sections → CounterInv (runE σ ops).1.sections := by
  induction ops with
  | nil => exact fun σ h => h
  | cons op ops ih => exact fun σ h => ih _ (step_counterInv σ op h)

/-- Whole-run accounting: after any call sequence, each section's counters
are the fold of the events the run emitted for it. -/
theorem runE_counters {T : Nat} (ops : List (Op T)) :
    ∀ σ : State T, StackInv σ → CounterInv σ.sections → ∀ s : Nat,
    (statGet (runE σ ops).1.sections s).entry_count
        = ((statGet σ.sections s).entry_count
            + countEntered (runE σ ops).2 s) % U64MOD ∧
    (statGet (runE σ ops).1.sections s).cumulative_time_ns
        = ((statGet σ.sections s).cumulative_time_ns
            + (completedList (runE σ ops).2 s).sum) % U64MOD ∧
    (statGet (runE σ ops).1.sections s).min_time_ns
        = (completedList (runE σ ops).2 s).foldl Nat.min
            (statGet σ.sections s).min_time_ns ∧
    (statGet (runE σ ops).1.sections s).max_time_ns
        = (completedList (runE σ ops).2 s).foldl Nat.max
            (statGet σ.sections s).max_time_ns := by
  induction ops with
  | nil =>
    intro σ hstk hctr s
    exact counters_nil_list _ s (hctr s).1 (hctr s).2.1
  | cons op ops ih =>
    intro σ hstk hctr s
    obtain ⟨s1, s2, s3, s4⟩ := step_counters σ op hstk hctr s
    obtain ⟨r1, r2, r3, r4⟩ :=
      ih (step σ op).1 (step_stackInv σ op hstk) (step_counterInv σ op hctr) s
    have hrun1 : (runE σ (op :: ops)).1 = (runE (step σ op).1 ops).1 := rfl
    have hrun2 : (runE σ (op :: ops)).2
        = (step σ op).2.toList ++ (runE (step σ op).1 ops).2 := rfl
    rw [hrun1, hrun2]
    refine ⟨?_, ?_, ?_, ?_⟩
    · rw [countEntered_append, r1, s1, Nat.mod_add_mod, Nat.add_assoc]
    · rw [completedList_append, List.sum_append, r2, s2, Nat.mod_add_mod,
        Nat.add_assoc]
    · rw [completedList_append, List.foldl_append, r3, s3]
    · rw [completedList_append, List.foldl_append, r4, s4]

theorem runE_events_le {T : Nat} (ops : List (Op T)) :
    ∀ σ : State T, (runE σ ops).2.length ≤ ops.length := by
  induction ops with
  | nil => exact fun σ => Nat.le_refl 0
  | cons op ops ih =>
    intro σ
    have h1 : (step σ op).2.toList.length ≤ 1 := by
      cases (step σ op).2 <;> simp
    have h2 := ih (step σ op).1
    calc (runE σ (op :: ops)).2.length
        = (step σ op).2.toList.length + (runE (step σ op).1 ops).2.length := by
          rw [runE_cons]
          exact List.length_append _ _
      _ ≤ 1 + ops.length := Nat.add_le_add h1 h2
      _ = ops.length + 1 := Nat.add_comm _ _

/-! ## Balanced runs: pushes and pops match up -/

/-- Number of live (un-exited) contexts for section `s` across a family of
thread stacks. -/
def stacksCount {T : Nat} (f : Fin T → List Context) (s : Nat) : Nat :=
  ∑ t : Fin T, ((f t).countP fun c => c.section_index == s)

/-- Number of live contexts for section `s` in a state. -/
def liveCount {T : Nat} (σ : State T) (s : Nat) : Nat :=
  stacksCount σ.threadStacks s

theorem stacksCount_update {T : Nat} (f : Fin T → List Context) (t : Fin T)
    (v : List Context) (s : Nat) :
    stacksCount (Function.update f t v) s
        + ((f t).countP fun c => c.section_index == s)
      = stacksCount f s + (v.countP fun c => c.section_index == s) := by
  unfold stacksCount
  have e1 : (∑ u : Fin T, ((Function.update f t v u).countP
        fun c => c.section_index == s))
      = ((Function.update f t v t).countP fun c => c.section_index == s)
        + ∑ u ∈ Finset.univ.erase t, ((Function.update f t v u).countP
            fun c => c.section_index == s) :=
    (Finset.add_sum_erase _ _ (Finset.mem_univ t)).symm
  have e2 : (∑ u : Fin T, ((f u).countP fun c => c.section_index == s))
      = ((f t).countP fun c => c.section_index == s)
        + ∑ u ∈ Finset.univ.erase t, ((f u).countP
            fun c => c.section_index == s) :=
    (Finset.add_sum_erase _ _ (Finset.mem_univ t)).symm
  have e3 : (∑ u ∈ Finset.univ.erase t, ((Function.update f t v u).countP
        fun c => c.section_index == s))
      = ∑ u ∈ Finset.univ.erase t, ((f u).countP
          fun c => c.section_index == s) :=
    Finset.sum_congr rfl fun u hu => by
      rw [Function.update_noteq (Finset.ne_of_mem_erase hu)]
  rw [e1, e2, e3, Function.update_same]
  omega

theorem getD_last (l : List α) (d : α) (h : l ≠ []) :
    l.getD (l.length - 1) d = l.getLast h := by
  have hlt : l.length - 1 < l.length := by
    cases l with
    | nil => exact absurd rfl h
    | cons a l => simp
  rw [List.getD_eq_getElem l d hlt, List.getLast_eq_getElem]

/-- A balanced step moves the per-section token `enters = completions +
live contexts` along. -/
theorem popOK_step_count {T : Nat} (σ : State T) (op : Op T)
    (hok : popOK σ op = true) (s : Nat) :
    countEntered (step σ op).2.toList s + liveCount σ s
      = (completedList (step σ op).2.toList s).length
          + liveCount (step σ op).1 s := by
  cases op with
  | reg n f li =>
    simp only [step, Option.toList_some, countEntered_registered,
      completedList_registered, liveCount]
    rfl
  | enter t now si =>
    simp only [popOK, Bool.and_eq_true, decide_eq_true_eq] at hok
    obtain ⟨⟨hge, hlt⟩, hdep⟩ := hok
    have hv : ¬(si < 0 ∨ (σ.sections.length : Int) ≤ si) := by omega
    simp only [step, section_enter_ok hv hdep]
    rw [if_pos (by positivity : (0 : Int) ≤ ((σ.threadStacks t).length : Int))]
    simp only [Option.toList_some, countEntered_entered, completedList_entered,
      List.length_nil, liveCount]
    have hupd := stacksCount_update σ.threadStacks t
      (σ.threadStacks t ++ [enterCtx (σ.threadStacks t) now si.toNat]) s
    rw [List.countP_append] at hupd
    have hone : ([enterCtx (σ.threadStacks t) now si.toNat].countP
        fun c => c.section_index == s) = if si.toNat = s then 1 else 0 := by
      by_cases hs : si.toNat = s <;>
        simp [enterCtx, List.countP, List.countP.go, hs, Bool.cond_eq_ite]
    rw [hone] at hupd
    by_cases hs : si.toNat = s
    · rw [if_pos hs]
      rw [if_pos hs] at hupd
      omega
    · rw [if_neg hs]
      rw [if_neg hs] at hupd
      omega
  | exit t now ci =>
    simp only [popOK, Bool.and_eq_true, Bool.not_eq_true', beq_iff_eq] at hok
    obtain ⟨hne', hci⟩ := hok
    have hne : σ.threadStacks t ≠ [] := by
      intro hh
      rw [hh] at hne'
      simp at hne'
    have hlen1 : 1 ≤ (σ.threadStacks t).length := by
      cases hh : σ.threadStacks t with
      | nil => exact absurd hh hne
      | cons a l => simp [hh]
    have hm : ¬(ci < 0 ∨ ((σ.threadStacks t).length : Int) - 1 < ci) := by omega
    simp only [step, section_exit_hit hm]
    rw [if_pos ((exitHits_true_iff _ _).mpr hm), if_pos hci]
    have hcit : ci.toNat = (σ.threadStacks t).length - 1 := by omega
    rw [hcit, getD_last (σ.threadStacks t) ctxDefault hne]
    simp only [Option.toList_some, countEntered_completed, completedList_completed,
      liveCount]
    have hupd := stacksCount_update σ.threadStacks t (σ.threadStacks t).dropLast s
    have hsplit : σ.threadStacks t
        = (σ.threadStacks t).dropLast ++ [(σ.threadStacks t).getLast hne] :=
      (List.dropLast_append_getLast hne).symm
    have hcnt : ((σ.threadStacks t).countP fun c => c.section_index == s)
        = ((σ.threadStacks t).dropLast.countP fun c => c.section_index == s)
          + (if ((σ.threadStacks t).getLast hne).section_index = s
             then 1 else 0) := by
      conv_lhs => rw [hsplit]
      rw [List.countP_append]
      congr 1
      by_cases hs : ((σ.threadStacks t).getLast hne).section_index = s <;>
        simp [List.countP, List.countP.go, hs, Bool.cond_eq_ite]
    by_cases hs : ((σ.threadStacks t).getLast hne).section_index = s
    · rw [if_pos hs] at hcnt ⊢
      simp only [List.length_singleton]
      omega
    · rw [if_neg hs] at hcnt ⊢
      simp only [List.length_nil]
      omega

theorem allPopping_counts {T : Nat} (ops : List (Op T)) :
    ∀ σ : State T, allPopping σ ops = true → ∀ s : Nat,
    countEntered (runE σ ops).2 s + liveCount σ s
      = (completedList (runE σ ops).2 s).length + liveCount (runE σ ops).1 s := by
  induction ops with
  | nil => intro σ h s; rfl
  | cons op ops ih =>
    intro σ h s
    simp only [allPopping, Bool.and_eq_true] at h
    obtain ⟨hok, hrest⟩ := h
    have h1 := popOK_step_count σ op hok s
    have h2 := ih (step σ op).1 hrest s
    have hrun1 : (runE σ (op :: ops)).1 = (runE (step σ op).1 ops).1 := rfl
    have hrun2 : (runE σ (op :: ops)).2
        = (step σ op).2.toList ++ (runE (step σ op).1 ops).2 := rfl
    rw [hrun1, hrun2, countEntered_append, completedList_append,
      List.length_append]
    omega

theorem liveCount_init (T : Nat) (s : Nat) : liveCount (initState T) s = 0 := by
  simp [liveCount, stacksCount, initState]

theorem liveCount_final_zero {T : Nat} {ops : List (Op T)}
    (hb : isBalanced (initState T) ops = true) (s : Nat) :
    liveCount (runFromInit T ops).1 s = 0 := by
  simp only [isBalanced, Bool.and_eq_true] at hb
  obtain ⟨_, hall⟩ := hb
  rw [List.all_eq_true] at hall
  unfold liveCount stacksCount
  refine Finset.sum_eq_zero fun t _ => ?_
  have h := hall t (List.mem_finRange t)
  simp only [List.isEmpty_iff] at h
  rw [show runFromInit T ops = runE (initState T) ops from rfl, h]
  rfl

/-- In a balanced run, the number of successful enters of each section
equals the number of completed activations of that section. -/
theorem balanced_entered_eq_completed {T : Nat} (ops : List (Op T))
    (hb : isBalanced (initState T) ops = true) (s : Nat) :
    countEntered (runFromInit T ops).2 s
      = (completedList (runFromInit T ops).2 s).length := by
  have hb' := hb
  simp only [isBalanced, Bool.and_eq_true] at hb'
  have h := allPopping_counts ops (initState T) hb'.1 s
  have hz := liveCount_final_zero hb s
  rw [liveCount_init] at h
  show countEntered (runE (initState T) ops).2 s
      = (completedList (runE (initState T) ops).2 s).length
  rw [show (runFromInit T ops) = runE (initState T) ops from rfl] at hz
  omega

/-! ## Folded extrema of a duration list -/

theorem foldl_min_le (ds : List Nat) :
    ∀ a : Nat, ds.foldl Nat.min a ≤ a ∧ ∀ d ∈ ds, ds.foldl Nat.min a ≤ d := by
  induction ds with
  | nil => exact fun a => ⟨Nat.le_refl a, by simp⟩
  | cons x xs ih =>
    intro a
    obtain ⟨h1, h2⟩ := ih (Nat.min a x)
    refine ⟨Nat.le_trans h1 (Nat.min_le_left _ _), ?_⟩
    intro d hd
    rcases List.mem_cons.mp hd with rfl | hd'
    · exact Nat.le_trans h1 (Nat.min_le_right _ _)
    · exact h2 d hd'

theorem foldl_min_or (ds : List Nat) :
    ∀ a : Nat, ds.foldl Nat.min a = a ∨ ds.foldl Nat.min a ∈ ds := by
  induction ds with
  | nil => exact fun a => Or.inl rfl
  | cons x xs ih =>
    intro a
    simp only [List.foldl_cons]
    rcases ih (Nat.min a x) with h | h
    · have hchoice : Nat.min a x = a ∨ Nat.min a x = x := by
        rcases Nat.le_total a x with hax | hax
        · exact Or.inl (Nat.min_eq_left hax)
        · exact Or.inr (Nat.min_eq_right hax)
      rcases hchoice with hm | hm
      · exact Or.inl (by rw [h, hm])
      · exact Or.inr (by rw [h, hm]; exact List.mem_cons_self _ _)
    · exact Or.inr (List.mem_cons_of_mem _ h)

theorem foldl_max_le (ds : List Nat) :
    ∀ a : Nat, a ≤ ds.foldl Nat.max a ∧ ∀ d ∈ ds, d ≤ ds.foldl Nat.max a := by
  induction ds with
  | nil => exact fun a => ⟨Nat.le_refl a, by simp⟩
  | cons x xs ih =>
    intro a
    obtain ⟨h1, h2⟩ := ih (Nat.max a x)
    refine ⟨Nat.le_trans (Nat.le_max_left _ _) h1, ?_⟩
    intro d hd
    rcases List.mem_cons.mp hd with rfl | hd'
    · exact Nat.le_trans (Nat.le_max_right _ _) h1
    · exact h2 d hd'

theorem foldl_max_or (ds : List Nat) :
    ∀ a : Nat, ds.foldl Nat.max a = a ∨ ds.foldl Nat.max a ∈ ds := by
  induction ds with
  | nil => exact fun a => Or.inl rfl
  | cons x xs ih =>
    intro a
    simp only [List.foldl_cons]
    rcases ih (Nat.max a x) with h | h
    · have hchoice : Nat.max a x = a ∨ Nat.max a x = x := by
        rcases Nat.le_total a x with hax | hax
        · exact Or.inr (Nat.max_eq_right hax)
        · exact Or.inl (Nat.max_eq_left hax)
      rcases hchoice with hm | hm
      · exact Or.inl (by rw [h, hm])
      · exact Or.inr (by rw [h, hm]; exact List.mem_cons_self _ _)
    · exact Or.inr (List.mem_cons_of_mem _ h)

/-! ## All logged durations are `uint64_t` values -/

theorem step_completed_lt {T : Nat} (σ : State T) (op : Op T) (s e : Nat)
    (h : e ∈ completedList (step σ op).2.toList s) : e < U64MOD := by
  cases op with
  | reg n f li =>
    rw [show (step σ (.reg n f li)).2
        = some (.registered n f li (register_section σ.sections n f li).2.1)
        from rfl] at h
    simp [completedList] at h
  | enter t now si =>
    have hev : (step σ (.enter t now si)).2 = some (.entered si.toNat)
        ∨ (step σ (.enter t now si)).2 = none := by
      simp only [step]
      split
      · exact Or.inl rfl
      · exact Or.inr rfl
    rcases hev with hev | hev <;> rw [hev] at h
    · rw [Option.toList_some, completedList_entered] at h
      exact absurd h (List.not_mem_nil e)
    · simp [completedList] at h
  | exit t now ci =>
    have hev : (step σ (.exit t now ci)).2
        = some (.completed ((σ.threadStacks t).getD ci.toNat ctxDefault).section_index
            (sub64 now ((σ.threadStacks t).getD ci.toNat ctxDefault).start_time_ns))
        ∨ (step σ (.exit t now ci)).2 = none := by
      simp only [step]
      split
      · exact Or.inl rfl
      · exact Or.inr rfl
    rcases hev with hev | hev <;> rw [hev] at h
    · rw [Option.toList_some, completedList_completed] at h
      by_cases hs : ((σ.threadStacks t).getD ci.toNat ctxDefault).section_index = s
      · rw [if_pos hs] at h
        rw [List.mem_singleton.mp h]
        exact sub64_lt _ _
      · rw [if_neg hs] at h
        exact absurd h (List.not_mem_nil e)
    · simp [completedList] at h

theorem runE_completed_lt {T : Nat} (ops : List (Op T)) :
    ∀ σ : State T, ∀ s e : Nat,
    e ∈ completedList (runE σ ops).2 s → e < U64MOD := by
  induction ops with
  | nil =>
    intro σ s e h
    simp [runE, completedList] at h
  | cons op ops ih =>
    intro σ s e h
    rw [show (runE σ (op :: ops)).2
        = (step σ op).2.toList ++ (runE (step σ op).1 ops).2 from rfl,
      completedList_append] at h
    rcases List.mem_append.mp h with h' | h'
    · exact step_completed_lt σ op s e h'
    · exact ih (step σ op).1 s e h'

/-! ## Claim C1 -/

/-- **C1.** For every sequence of enter/exit calls that is balanced per
thread (each `section_enter`'s returned context id is passed to exactly one
matching `section_exit` in stack order), after `N` completed activations of
a section the section's `entry_count` equals `N`, its `cumulative_time_ns`
equals the sum of the measured elapsed durations of those activations, its
`min_time_ns` equals their minimum and its `max_time_ns` equals their
maximum.  The durations are the elapsed values the code computes at each
completing exit; the side conditions state that the counters do not wrap
their `uint64_t` range. -/
theorem c1_balanced_section_stats {T : Nat} (ops : List (Op T)) (s : Nat)
    (hbal : isBalanced (initState T) ops = true)
    (hlen : ops.length < U64MOD)
    (hsum : (durationsOf T ops s).sum < U64MOD) :
    (statGet (runFromInit T ops).1.sections s).entry_count
        = (durationsOf T ops s).length
  ∧ (statGet (runFromInit T ops).1.sections s).cumulative_time_ns
        = (durationsOf T ops s).sum
  ∧ (durationsOf T ops s ≠ [] →
      ((statGet (runFromInit T ops).1.sections s).min_time_ns
          ∈ durationsOf T ops s
        ∧ ∀ d ∈ durationsOf T ops s,
            (statGet (runFromInit T ops).1.sections s).min_time_ns ≤ d)
      ∧ ((statGet (runFromInit T ops).1.sections s).max_time_ns
          ∈ durationsOf T ops s
        ∧ ∀ d ∈ durationsOf T ops s,
            d ≤ (statGet (runFromInit T ops).1.sections s).max_time_ns)) := by
  obtain ⟨q1, q2, q3, q4⟩ :=
    runE_counters ops (initState T) (stackInv_init T) (counterInv_init T) s
  have hN := balanced_entered_eq_completed ops hbal s
  have hinit : statGet (initState T).sections s = initStats := by
    simp [initState, statGet]
  rw [hinit] at q1 q2 q3 q4
  have hrw : runFromInit T ops = runE (initState T) ops := rfl
  have hds : durationsOf T ops s = completedList (runE (initState T) ops).2 s :=
    rfl
  rw [hrw] at hN
  rw [hds] at hsum
  rw [hrw, hds]
  have hcE : countEntered (runE (initState T) ops).2 s < U64MOD :=
    Nat.lt_of_le_of_lt
      (Nat.le_trans (List.countP_le_length _) (runE_events_le ops (initState T)))
      hlen
  have hE0 : initStats.entry_count = 0 := rfl
  have hC0 : initStats.cumulative_time_ns = 0 := rfl
  have hMn : initStats.min_time_ns = UINT64_MAX := rfl
  have hMx : initStats.max_time_ns = 0 := rfl
  refine ⟨?_, ?_, ?_⟩
  · rw [q1, hE0, Nat.zero_add, Nat.mod_eq_of_lt hcE, hN]
  · rw [q2, hC0, Nat.zero_add, Nat.mod_eq_of_lt hsum]
  · intro hne
    have hlt : ∀ d ∈ completedList (runE (initState T) ops).2 s, d < U64MOD :=
      fun d hd => runE_completed_lt ops (initState T) s d hd
    have hleU : ∀ d ∈ completedList (runE (initState T) ops).2 s,
        d ≤ UINT64_MAX := by
      intro d hd
      have := hlt d hd
      have hq : UINT64_MAX = U64MOD - 1 := rfl
      omega
    obtain ⟨d0, hd0⟩ := List.exists_mem_of_ne_nil _ hne
    constructor
    · rw [q3, hMn]
      rcases foldl_min_or (completedList (runE (initState T) ops).2 s)
          UINT64_MAX with hOr | hOr
      · have hmem : (completedList (runE (initState T) ops).2 s).foldl
            Nat.min UINT64_MAX ∈ completedList (runE (initState T) ops).2 s := by
          have hle := (foldl_min_le (completedList (runE (initState T) ops).2 s)
            UINT64_MAX).2 d0 hd0
          have heq : (completedList (runE (initState T) ops).2 s).foldl
              Nat.min UINT64_MAX = d0 :=
            Nat.le_antisymm hle (by rw [hOr]; exact hleU d0 hd0)
          rw [heq]
          exact hd0
        exact ⟨hmem,
          (foldl_min_le (completedList (runE (initState T) ops).2 s) UINT64_MAX).2⟩
      · exact ⟨hOr,
          (foldl_min_le (completedList (runE (initState T) ops).2 s) UINT64_MAX).2⟩
    · rw [q4, hMx]
      rcases foldl_max_or (completedList (runE (initState T) ops).2 s) 0
          with hOr | hOr
      · have hmem : (completedList (runE (initState T) ops).2 s).foldl
            Nat.max 0 ∈ completedList (runE (initState T) ops).2 s := by
          have hle := (foldl_max_le (completedList (runE (initState T) ops).2 s)
            0).2 d0 hd0
          have heq : (completedList (runE (initState T) ops).2 s).foldl
              Nat.max 0 = d0 :=
            Nat.le_antisymm (by omega) hle
          rw [heq]
          exact hd0
        exact ⟨hmem,
          (foldl_max_le (completedList (runE (initState T) ops).2 s) 0).2⟩
      · exact ⟨hOr,
          (foldl_max_le (completedList (runE (initState T) ops).2 s) 0).2⟩

/-- Witness for C1 at the spec's worked example: `register("compute","f.c",10)`,
enter at `t = 0`, exit at `t = 5000000`. -/
theorem c1_balanced_section_stats_witness :
    (statGet (runFromInit 1 [.reg "compute" (some "f.c") 10, .enter 0 0 0,
        .exit 0 5000000 0]).1.sections 0).entry_count
      = (durationsOf 1 [.reg "compute" (some "f.c") 10, .enter 0 0 0,
          .exit 0 5000000 0] 0).length
  ∧ (statGet (runFromInit 1 [.reg "compute" (some "f.c") 10, .enter 0 0 0,
        .exit 0 5000000 0]).1.sections 0).cumulative_time_ns
      = (durationsOf 1 [.reg "compute" (some "f.c") 10, .enter 0 0 0,
          .exit 0 5000000 0] 0).sum
  ∧ (statGet (runFromInit 1 [.reg "compute" (some "f.c") 10, .enter 0 0 0,
        .exit 0 5000000 0]).1.sections 0).min_time_ns
      ∈ durationsOf 1 [.reg "compute" (some "f.c") 10, .enter 0 0 0,
          .exit 0 5000000 0] 0
  ∧ (statGet (runFromInit 1 [.reg "compute" (some "f.c") 10, .enter 0 0 0,
        .exit 0 5000000 0]).1.sections 0).max_time_ns
      ∈ durationsOf 1 [.reg "compute" (some "f.c") 10, .enter 0 0 0,
          .exit 0 5000000 0] 0 := by
  have h := c1_balanced_section_stats (T := 1)
    [.reg "compute" (some "f.c") 10, .enter 0 0 0, .exit 0 5000000 0] 0
    (by decide) (by decide) (by decide)
  exact ⟨h.1, h.2.1, (h.2.2 (by decide)).1.1, (h.2.2 (by decide)).2.1⟩

/-! ## Claim C6 -/

/-- **C6.** `section_enter(section_index)` returns `-1` for every negative
or out-of-range section index (leaving everything unchanged), returns `-1`
and leaves the thread-local context stack completely unmodified whenever
that stack is already at its capacity, and on every successful call pushes
one context and returns the new stack depth (the 0-based index of the
pushed context) as the context id. -/
theorem c6_section_enter_contract (sections : List SectionStats)
    (stack : List Context) (now : Nat) (si : Int) :
    ((si < 0 ∨ (sections.length : Int) ≤ si) →
        section_enter sections stack now si = (sections, stack, -1))
  ∧ (¬(si < 0 ∨ (sections.length : Int) ≤ si) →
      NARWHALYZER_MAX_NESTING_DEPTH ≤ stack.length →
        section_enter sections stack now si = (sections, stack, -1))
  ∧ (¬(si < 0 ∨ (sections.length : Int) ≤ si) →
      stack.length < NARWHALYZER_MAX_NESTING_DEPTH →
        (section_enter sections stack now si).2.1
            = stack ++ [enterCtx stack now si.toNat]
          ∧ (section_enter sections stack now si).2.2 = (stack.length : Int)) := by
  refine ⟨fun h => section_enter_invalid h,
    fun h h2 => section_enter_deep h h2,
    fun h h2 => ?_⟩
  rw [section_enter_ok h h2]
  exact ⟨rfl, rfl⟩

/-- Witness for C6: all three behaviours at concrete inputs (invalid index,
stack at capacity, successful push). -/
theorem c6_section_enter_contract_witness :
    section_enter [] [] 5 (-1) = ([], [], -1)
  ∧ section_enter [initStats] (List.replicate 128 ctxDefault) 5 0
      = ([initStats], List.replicate 128 ctxDefault, -1)
  ∧ (section_enter [initStats] [] 5 0).2.1 = [] ++ [enterCtx [] 5 0]
  ∧ (section_enter [initStats] [] 5 0).2.2 = (([] : List Context).length : Int) := by
  refine ⟨(c6_section_enter_contract [] [] 5 (-1)).1 (by decide),
    (c6_section_enter_contract [initStats] (List.replicate 128 ctxDefault) 5 0).2.1
      (by decide) (by decide),
    ((c6_section_enter_contract [initStats] [] 5 0).2.2 (by decide) (by decide)).1,
    ((c6_section_enter_contract [initStats] [] 5 0).2.2 (by decide) (by decide)).2⟩

/-! ## Claim C7 -/

/-- **C7.** `section_exit(context_id)` is a no-op for every context id
outside the current valid range of the calling thread's stack; for an
in-range context id it updates exactly that context's section statistics
(no other section's aggregates change) and pops the stack only if the
exited context is exactly the current top, so the stack is never cut below
the still-active contexts. -/
theorem c7_section_exit_contract (sections : List SectionStats)
    (stack : List Context) (now : Nat) (ci : Int) :
    ((ci < 0 ∨ (stack.length : Int) - 1 < ci) →
        section_exit sections stack now ci = (sections, stack))
  ∧ (¬(ci < 0 ∨ (stack.length : Int) - 1 < ci) →
      (∀ s : Nat, s ≠ (stack.getD ci.toNat ctxDefault).section_index →
          statGet (section_exit sections stack now ci).1 s = statGet sections s)
      ∧ ((stack.getD ci.toNat ctxDefault).section_index < sections.length →
          statGet (section_exit sections stack now ci).1
              (stack.getD ci.toNat ctxDefault).section_index
            = exitUpdate (sub64 now (stack.getD ci.toNat ctxDefault).start_time_ns)
                (statGet sections (stack.getD ci.toNat ctxDefault).section_index))
      ∧ (section_exit sections stack now ci).2
          = (if ci = (stack.length : Int) - 1 then stack.dropLast else stack)) := by
  refine ⟨fun h => section_exit_miss h, fun h => ⟨?_, ?_, ?_⟩⟩
  · intro s hs
    rw [section_exit_hit h]
    show statGet (modifyIdx sections _ _) s = statGet sections s
    rw [statGet_modifyIdx, if_neg (fun hh => hs hh.1)]
  · intro hsec
    rw [section_exit_hit h]
    show statGet (modifyIdx sections _ _) _ = _
    rw [statGet_modifyIdx, if_pos ⟨rfl, hsec⟩]
  · rw [section_exit_hit h]

/-- Witness for C7: the no-op behaviour on an already-popped context id,
non-interference with another section, the updated section, and the
top-only pop, at concrete inputs. -/
theorem c7_section_exit_contract_witness :
    section_exit [initStats] [enterCtx [] 0 0] 7 1 = ([initStats], [enterCtx [] 0 0])
  ∧ statGet (section_exit [initStats, initStats] [enterCtx [] 0 0] 7 0).1 1
      = statGet [initStats, initStats] 1
  ∧ statGet (section_exit [initStats, initStats] [enterCtx [] 0 0] 7 0).1 0
      = exitUpdate (sub64 7 (([enterCtx [] 0 0].getD 0 ctxDefault).start_time_ns))
          (statGet [initStats, initStats] 0)
  ∧ (section_exit [initStats, initStats] [enterCtx [] 0 0] 7 0).2
      = (if (0 : Int) = (([enterCtx [] 0 0] : List Context).length : Int) - 1
         then ([enterCtx [] 0 0] : List Context).dropLast else [enterCtx [] 0 0]) := by
  refine ⟨(c7_section_exit_contract [initStats] [enterCtx [] 0 0] 7 1).1 (by decide),
    ((c7_section_exit_contract [initStats, initStats] [enterCtx [] 0 0] 7 0).2
        (by decide)).1 1 (by decide),
    ((c7_section_exit_contract [initStats, initStats] [enterCtx [] 0 0] 7 0).2
        (by decide)).2.1 (by decide),
    ((c7_section_exit_contract [initStats, initStats] [enterCtx [] 0 0] 7 0).2
        (by decide)).2.2⟩

/-! ## Claim C8 -/

/-- **C8.** When the registry already holds its maximum number of
sections, registering one more distinct (name, file, line) triple returns
the sentinel `-1`, leaves the section count exactly at capacity and every
existing section untouched (the returned table is unchanged), and emits
the capacity diagnostic. -/
theorem c8_register_at_capacity (sections : List SectionStats) (n : String)
    (f : Option String) (li : Int)
    (hcap : sections.length = NARWHALYZER_MAX_SECTIONS)
    (hnew : ∀ s ∈ sections, matchesSection s n f li = false) :
    register_section sections n f li = (sections, -1, true) := by
  have hnone : lookupSection sections n f li = none :=
    (lookupSection_eq_none_iff _ _ _ _).mpr hnew
  exact register_section_full hnone (Nat.le_of_eq hcap.symm)

/-- Witness for C8: a table of 2048 sections rejects a fresh triple. -/
theorem c8_register_at_capacity_witness :
    register_section (List.replicate 2048 initStats) "x" (some "f.c") 1
      = (List.replicate 2048 initStats, -1, true) :=
  c8_register_at_capacity (List.replicate 2048 initStats) "x" (some "f.c") 1
    (by simp [NARWHALYZER_MAX_SECTIONS])
    (fun s hs => by rw [List.eq_of_mem_replicate hs]; rfl)

/-! ## Claim C10 -/

/-- **C10.** The deduplication in `register_section` requires both the
stored file pointer and the argument file pointer to be non-null, so a
call with `file == NULL` never matches an existing section: below capacity
it always allocates a fresh index (hence registration is not idempotent
for null files), and at capacity it fails with `-1`. -/
theorem c10_null_file_always_allocates (sections : List SectionStats)
    (n : String) (li : Int) :
    (sections.length < NARWHALYZER_MAX_SECTIONS →
        register_section sections n none li
          = (sections ++ [freshSection n none li], (sections.length : Int), false))
  ∧ (NARWHALYZER_MAX_SECTIONS ≤ sections.length →
        register_section sections n none li = (sections, -1, true)) := by
  have hnone : lookupSection sections n none li = none :=
    (lookupSection_eq_none_iff _ _ _ _).mpr
      (fun s _ => matchesSection_file_none s n li)
  exact ⟨fun h => register_section_alloc hnone h,
    fun h => register_section_full hnone h⟩

/-- Witness for C10: the second registration of the same null-file triple
allocates a second index rather than deduplicating, and a full table
rejects a null-file registration. -/
theorem c10_null_file_always_allocates_witness :
    register_section [freshSection "a" none 1] "a" none 1
      = ([freshSection "a" none 1] ++ [freshSection "a" none 1], 1, false)
  ∧ register_section (List.replicate 2048 initStats) "a" none 1
      = (List.replicate 2048 initStats, -1, true) :=
  ⟨(c10_null_file_always_allocates [freshSection "a" none 1] "a" 1).1 (by decide),
   (c10_null_file_always_allocates (List.replicate 2048 initStats) "a" 1).2
     (by simp [NARWHALYZER_MAX_SECTIONS])⟩

/-! ## Claim C2, counterexample part -/

/-- **C2, counterexample.**  Registering the same (name, file, line) triple
twice does not always return the same index: with a NULL file pointer the
dedup scan never matches, so the second registration of `("a", NULL, 1)`
returns index 1 while the first returned index 0. -/
theorem c2_register_counterexample :
    (register_section [] "a" none 1).2.1 = 0
  ∧ (register_section (register_section [] "a" none 1).1 "a" none 1).2.1 = 1
  ∧ (register_section [] "a" none 1).2.1 ≠
      (register_section (register_section [] "a" none 1).1 "a" none 1).2.1 := by
  decide

/-! ## Registration identity invariants (for claim C2) -/

theorem matchesSection_true_iff (s : SectionStats) (n : String)
    (f : Option String) (li : Int) :
    matchesSection s n f li = true ↔
      s.line = li ∧ (∃ v, s.file = some v ∧ f = some v) ∧ s.name = n := by
  cases hsf : s.file <;> cases hf : f <;>
    simp only [matchesSection, hsf, hf, Bool.and_eq_true, beq_iff_eq]
  · simp
  · simp
  · simp
  · constructor
    · rintro ⟨⟨h1, h2⟩, h3⟩
      exact ⟨h1, ⟨_, rfl, by rw [h2]⟩, h3⟩
    · rintro ⟨h1, ⟨v, hv1, hv2⟩, h3⟩
      refine ⟨⟨h1, ?_⟩, h3⟩
      rw [Option.some.injEq] at hv1 hv2
      rw [hv1, hv2]

theorem matchesSection_symm_true {a b : SectionStats}
    (h : matchesSection a b.name b.file b.line = true) :
    matchesSection b a.name a.file a.line = true := by
  rw [matchesSection_true_iff] at h ⊢
  obtain ⟨h1, ⟨v, hv1, hv2⟩, h3⟩ := h
  exact ⟨h1.symm, ⟨v, hv2, hv1⟩, h3.symm⟩

/-- No two distinct table entries carry matching identity triples (the
dedup scan keeps non-null-file triples unique; null-file entries match
nothing at all). -/
def NoDupSections (sections : List SectionStats) : Prop :=
  ∀ i j : Nat, i < sections.length → j < sections.length →
    matchesSection (statGet sections i) (statGet sections j).name
      (statGet sections j).file (statGet sections j).line = true → i = j

theorem noDupSections_nil : NoDupSections [] := by
  intro i j hi _ _
  simp at hi

theorem matchesSection_congr {a a' : SectionStats} (n : String)
    (f : Option String) (li : Int) (h1 : a.name = a'.name)
    (h2 : a.file = a'.file) (h3 : a.line = a'.line) :
    matchesSection a n f li = matchesSection a' n f li := by
  unfold matchesSection
  rw [h1, h2, h3]

/-- Identity fields of existing sections survive any step; the table only
grows. -/
theorem step_ident_preserved {T : Nat} (σ : State T) (op : Op T) (s : Nat)
    (hs : s < σ.sections.length) :
    σ.sections.length ≤ (step σ op).1.sections.length ∧
    (statGet (step σ op).1.sections s).name = (statGet σ.sections s).name ∧
    (statGet (step σ op).1.sections s).file = (statGet σ.sections s).file ∧
    (statGet (step σ op).1.sections s).line = (statGet σ.sections s).line := by
  cases op with
  | reg n f li =>
    simp only [step]
    rcases register_section_cases σ.sections n f li with h | h <;> rw [h]
    · exact ⟨Nat.le_refl _, rfl, rfl, rfl⟩
    · refine ⟨by simp, ?_⟩
      rw [statGet_append_one, if_pos hs]
      exact ⟨rfl, rfl, rfl⟩
  | enter t now si =>
    by_cases hv : si < 0 ∨ (σ.sections.length : Int) ≤ si
    · simp only [step, section_enter_invalid hv]
      exact ⟨Nat.le_refl _, by trivial, by trivial, by trivial⟩
    · by_cases hf : NARWHALYZER_MAX_NESTING_DEPTH ≤ (σ.threadStacks t).length
      · simp only [step, section_enter_deep hv hf]
        exact ⟨Nat.le_refl _, by trivial, by trivial, by trivial⟩
      · simp only [step, section_enter_ok hv (Nat.lt_of_not_le hf)]
        rw [length_modifyIdx, statGet_modifyIdx]
        refine ⟨Nat.le_refl _, ?_⟩
        split
        · exact ⟨enterUpdate_name _ _, enterUpdate_file _ _, enterUpdate_line _ _⟩
        · exact ⟨rfl, rfl, rfl⟩
  | exit t now ci =>
    by_cases hm : ci < 0 ∨ ((σ.threadStacks t).length : Int) - 1 < ci
    · simp only [step, section_exit_miss hm]
      exact ⟨Nat.le_refl _, by trivial, by trivial, by trivial⟩
    · simp only [step, section_exit_hit hm]
      rw [length_modifyIdx, statGet_modifyIdx]
      refine ⟨Nat.le_refl _, ?_⟩
      split
      · exact ⟨exitUpdate_name _ _, exitUpdate_file _ _, exitUpdate_line _ _⟩
      · exact ⟨rfl, rfl, rfl⟩

theorem runE_ident_preserved {T : Nat} (ops : List (Op T)) :
    ∀ σ : State T, ∀ s : Nat, s < σ.sections.length →
    σ.sections.length ≤ (runE σ ops).1.sections.length ∧
    (statGet (runE σ ops).1.sections s).name = (statGet σ.sections s).name ∧
    (statGet (runE σ ops).1.sections s).file = (statGet σ.sections s).file ∧
    (statGet (runE σ ops).1.sections s).line = (statGet σ.sections s).line := by
  induction ops with
  | nil => exact fun σ s _ => ⟨Nat.le_refl _, rfl, rfl, rfl⟩
  | cons op ops ih =>
    intro σ s hs
    obtain ⟨l1, e1, e2, e3⟩ := step_ident_preserved σ op s hs
    obtain ⟨l2, f1, f2, f3⟩ := ih (step σ op).1 s (Nat.lt_of_lt_of_le hs l1)
    exact ⟨Nat.le_trans l1 l2, f1.trans e1, f2.trans e2, f3.trans e3⟩

/-- Every step preserves uniqueness of identity triples. -/
theorem step_noDup {T : Nat} (σ : State T) (op : Op T)
    (h : NoDupSections σ.sections) : NoDupSections (step σ op).1.sections := by
  have htransfer : ∀ l' : List SectionStats, l'.length = σ.sections.length →
      (∀ s : Nat, s < σ.sections.length →
        (statGet l' s).name = (statGet σ.sections s).name ∧
        (statGet l' s).file = (statGet σ.sections s).file ∧
        (statGet l' s).line = (statGet σ.sections s).line) →
      NoDupSections l' := by
    intro l' hlen hid i j hi hj hm
    have hi' : i < σ.sections.length := hlen ▸ hi
    have hj' : j < σ.sections.length := hlen ▸ hj
    obtain ⟨a1, a2, a3⟩ := hid i hi'
    obtain ⟨b1, b2, b3⟩ := hid j hj'
    apply h i j hi' hj'
    rw [← matchesSection_congr _ _ _ a1 a2 a3, ← b1, ← b2, ← b3]
    exact hm
  cases op with
  | reg n f li =>
    simp only [step]
    rcases hlk : lookupSection σ.sections n f li with _ | k
    · by_cases hcap : NARWHALYZER_MAX_SECTIONS ≤ σ.sections.length
      · rw [register_section_full hlk hcap]
        exact h
      · rw [register_section_alloc hlk (Nat.lt_of_not_le hcap)]
        show NoDupSections (σ.sections ++ [freshSection n f li])
        have hnomatch : ∀ s ∈ σ.sections, matchesSection s n f li = false :=
          (lookupSection_eq_none_iff _ _ _ _).mp hlk
        intro i j hi hj hm
        rw [List.length_append, List.length_singleton] at hi hj
        have hfr : statGet (σ.sections ++ [freshSection n f li])
            σ.sections.length = freshSection n f li := by
          rw [statGet_append_one, if_neg (Nat.lt_irrefl _), if_pos rfl]
        by_cases hi' : i < σ.sections.length <;>
          by_cases hj' : j < σ.sections.length
        · refine h i j hi' hj' ?_
          rw [statGet_append_one, if_pos hi', statGet_append_one, if_pos hj'] at hm
          exact hm
        · have hj2 : j = σ.sections.length := by omega
          subst hj2
          rw [statGet_append_one, if_pos hi', hfr] at hm
          have hm' : matchesSection (statGet σ.sections i) n f li = true := by
            have e1 : (freshSection n f li).name = n := rfl
            have e2 : (freshSection n f li).file = f := rfl
            have e3 : (freshSection n f li).line = li := rfl
            rw [e1, e2, e3] at hm
            exact hm
          have hmem : statGet σ.sections i ∈ σ.sections :=
            getD_mem_of_lt σ.sections i initStats hi'
          have hno := hnomatch _ hmem
          rw [hno] at hm'
          exact absurd hm' (by simp)
        · have hi2 : i = σ.sections.length := by omega
          subst hi2
          rw [hfr, statGet_append_one, if_pos hj'] at hm
          have hsym := matchesSection_symm_true hm
          have e1 : (freshSection n f li).name = n := rfl
          have e2 : (freshSection n f li).file = f := rfl
          have e3 : (freshSection n f li).line = li := rfl
          rw [e1, e2, e3] at hsym
          have hmem : statGet σ.sections j ∈ σ.sections :=
            getD_mem_of_lt σ.sections j initStats hj'
          have hno := hnomatch _ hmem
          rw [hno] at hsym
          exact absurd hsym (by simp)
        · omega
    · rw [register_section_hit hlk]
      exact h
  | enter t now si =>
    by_cases hv : si < 0 ∨ (σ.sections.length : Int) ≤ si
    · simp only [step, section_enter_invalid hv]
      exact h
    · by_cases hf : NARWHALYZER_MAX_NESTING_DEPTH ≤ (σ.threadStacks t).length
      · simp only [step, section_enter_deep hv hf]
        exact h
      · simp only [step, section_enter_ok hv (Nat.lt_of_not_le hf)]
        refine htransfer _ (length_modifyIdx _ _ _) fun s hs => ?_
        rw [statGet_modifyIdx]
        split
        · exact ⟨enterUpdate_name _ _, enterUpdate_file _ _, enterUpdate_line _ _⟩
        · exact ⟨rfl, rfl, rfl⟩
  | exit t now ci =>
    by_cases hm : ci < 0 ∨ ((σ.threadStacks t).length : Int) - 1 < ci
    · simp only [step, section_exit_miss hm]
      exact h
    · simp only [step, section_exit_hit hm]
      refine htransfer _ (length_modifyIdx _ _ _) fun s hs => ?_
      rw [statGet_modifyIdx]
      split
      · exact ⟨exitUpdate_name _ _, exitUpdate_file _ _, exitUpdate_line _ _⟩
      · exact ⟨rfl, rfl, rfl⟩

theorem runE_noDup {T : Nat} (ops : List (Op T)) :
    ∀ σ : State T, NoDupSections σ.sections →
    NoDupSections (runE σ ops).1.sections := by
  induction ops with
  | nil => exact fun σ h => h
  | cons op ops ih => exact fun σ h => ih _ (step_noDup σ op h)

theorem step_enter_ev_shape {T : Nat} (σ : State T) (t : Fin T) (now : Nat)
    (si : Int) :
    (step σ (.enter t now si)).2 = some (.entered si.toNat)
  ∨ (step σ (.enter t now si)).2 = none := by
  simp only [step]
  split
  · exact Or.inl rfl
  · exact Or.inr rfl

theorem step_exit_ev_shape {T : Nat} (σ : State T) (t : Fin T) (now : Nat)
    (ci : Int) :
    (step σ (.exit t now ci)).2
      = some (.completed ((σ.threadStacks t).getD ci.toNat ctxDefault).section_index
          (sub64 now ((σ.threadStacks t).getD ci.toNat ctxDefault).start_time_ns))
  ∨ (step σ (.exit t now ci)).2 = none := by
  simp only [step]
  split
  · exact Or.inl rfl
  · exact Or.inr rfl

/-- Every non-sentinel index a registration returned points at a live slot
that carries exactly the registered identity triple. -/
def RegEventsOK (sections : List SectionStats) (evs : List Ev) : Prop :=
  ∀ (n : String) (f : Option String) (li : Int) (i : Int),
    Ev.registered n f li i ∈ evs → 0 ≤ i →
    i.toNat < sections.length ∧
    (statGet sections i.toNat).name = n ∧
    (statGet sections i.toNat).file = f ∧
    (statGet sections i.toNat).line = li

theorem register_section_result_ident (sections : List SectionStats)
    (n : String) (f : Option String) (li : Int)
    (hpos : 0 ≤ (register_section sections n f li).2.1) :
    (register_section sections n f li).2.1.toNat
        < (register_section sections n f li).1.length ∧
    (statGet (register_section sections n f li).1
        (register_section sections n f li).2.1.toNat).name = n ∧
    (statGet (register_section sections n f li).1
        (register_section sections n f li).2.1.toNat).file = f ∧
    (statGet (register_section sections n f li).1
        (register_section sections n f li).2.1.toNat).line = li := by
  rcases hlk : lookupSection sections n f li with _ | k
  · by_cases hcap : NARWHALYZER_MAX_SECTIONS ≤ sections.length
    · rw [register_section_full hlk hcap] at hpos
      norm_num at hpos
    · rw [register_section_alloc hlk (Nat.lt_of_not_le hcap)] at hpos ⊢
      have ht : ((sections.length : Int)).toNat = sections.length :=
        Int.toNat_natCast _
      show (((sections.length : Int)).toNat < (sections ++ [freshSection n f li]).length) ∧ _
      rw [ht]
      have hfr : statGet (sections ++ [freshSection n f li]) sections.length
          = freshSection n f li := by
        rw [statGet_append_one, if_neg (Nat.lt_irrefl _), if_pos rfl]
      rw [hfr]
      refine ⟨by simp, rfl, rfl, rfl⟩
  · rw [register_section_hit hlk] at hpos ⊢
    obtain ⟨hk, hmk⟩ := lookupSection_some sections n f li k hlk
    rw [matchesSection_true_iff] at hmk
    obtain ⟨hline, ⟨v, hv1, hv2⟩, hname⟩ := hmk
    have ht : ((k : Int)).toNat = k := Int.toNat_natCast _
    show ((k : Int)).toNat < sections.length ∧ _
    rw [ht]
    exact ⟨hk, hname, hv1.trans hv2.symm, hline⟩

theorem runE_regEventsOK {T : Nat} (ops : List (Op T)) :
    ∀ σ : State T, RegEventsOK (runE σ ops).1.sections (runE σ ops).2 := by
  induction ops with
  | nil =>
    intro σ n f li i hmem _
    simp [runE] at hmem
  | cons op ops ih =>
    intro σ n f li i hmem hpos
    rw [show (runE σ (op :: ops)).2
        = (step σ op).2.toList ++ (runE (step σ op).1 ops).2 from rfl] at hmem
    show i.toNat < (runE (step σ op).1 ops).1.sections.length ∧ _
    rcases List.mem_append.mp hmem with hm | hm
    · cases op with
      | reg n0 f0 li0 =>
        have hev : (step σ (.reg n0 f0 li0)).2
            = some (.registered n0 f0 li0
                (register_section σ.sections n0 f0 li0).2.1) := rfl
        rw [hev, Option.toList_some, List.mem_singleton] at hm
        rw [Ev.registered.injEq] at hm
        obtain ⟨rfl, rfl, rfl, rfl⟩ := hm
        obtain ⟨g1, g2, g3, g4⟩ :=
          register_section_result_ident σ.sections n f li hpos
        obtain ⟨l1, p1, p2, p3⟩ :=
          runE_ident_preserved ops (step σ (.reg n f li)).1
            (register_section σ.sections n f li).2.1.toNat g1
        exact ⟨Nat.lt_of_lt_of_le g1 l1, p1.trans g2, p2.trans g3, p3.trans g4⟩
      | enter t0 now0 si0 =>
        rcases step_enter_ev_shape σ t0 now0 si0 with hev | hev <;>
          rw [hev] at hm <;> simp at hm
      | exit t0 now0 ci0 =>
        rcases step_exit_ev_shape σ t0 now0 ci0 with hev | hev <;>
          rw [hev] at hm <;> simp at hm
    · exact ih (step σ op).1 n f li i hm hpos

/-! ## Claim C2, amended part -/

/-- **C2, amended.**  Within any run: two successful registrations of the
same (name, file, line) triple with a non-null file return the same index
(idempotence requires `file != NULL`, since the dedup scan skips null-file
entries — the counterexample shows the original unconditional claim
fails); and successful registrations of distinct triples never return the
same index (injectivity holds unconditionally). -/
theorem c2_register_idempotent_injective {T : Nat} (ops : List (Op T))
    (n n' : String) (f f' : Option String) (li li' : Int) (i j : Int)
    (h1 : Ev.registered n f li i ∈ (runFromInit T ops).2)
    (h2 : Ev.registered n' f' li' j ∈ (runFromInit T ops).2)
    (hi : 0 ≤ i) (hj : 0 ≤ j) :
    ((n = n' ∧ f = f' ∧ li = li' ∧ f ≠ none) → i = j)
  ∧ (¬(n = n' ∧ f = f' ∧ li = li') → i ≠ j) := by
  have hnd : NoDupSections (runE (initState T) ops).1.sections :=
    runE_noDup ops (initState T) noDupSections_nil
  have hev := runE_regEventsOK ops (initState T)
  obtain ⟨hi1, hi2, hi3, hi4⟩ := hev n f li i h1 hi
  obtain ⟨hj1, hj2, hj3, hj4⟩ := hev n' f' li' j h2 hj
  constructor
  · rintro ⟨rfl, rfl, rfl, hfn⟩
    obtain ⟨v, hv⟩ : ∃ v, f = some v := by
      cases hfv : f with
      | none => exact absurd hfv hfn
      | some v => exact ⟨v, rfl⟩
    have hmatch : matchesSection
        (statGet (runE (initState T) ops).1.sections i.toNat)
        (statGet (runE (initState T) ops).1.sections j.toNat).name
        (statGet (runE (initState T) ops).1.sections j.toNat).file
        (statGet (runE (initState T) ops).1.sections j.toNat).line = true := by
      rw [matchesSection_true_iff]
      refine ⟨hi4.trans hj4.symm, ⟨v, ?_, ?_⟩, hi2.trans hj2.symm⟩
      · rw [hi3, hv]
      · rw [hj3, hv]
    have := hnd i.toNat j.toNat hi1 hj1 hmatch
    omega
  · intro hne hij
    apply hne
    have hToNat : i.toNat = j.toNat := by omega
    refine ⟨hi2.symm.trans ?_, hi3.symm.trans ?_, hi4.symm.trans ?_⟩
    · rw [hToNat]
      exact hj2
    · rw [hToNat]
      exact hj3
    · rw [hToNat]
      exact hj4

/-- Witness for C2 (amended): a run registering ("a","f",1) twice and
("b","f",2) once; the two distinct triples receive indices 0 and 1. -/
theorem c2_register_idempotent_injective_witness :
    Ev.registered "a" (some "f") 1 0
        ∈ (runFromInit 1 [.reg "a" (some "f") 1, .reg "a" (some "f") 1,
            .reg "b" (some "f") 2]).2
  ∧ Ev.registered "b" (some "f") 2 1
        ∈ (runFromInit 1 [.reg "a" (some "f") 1, .reg "a" (some "f") 1,
            .reg "b" (some "f") 2]).2
  ∧ (0 : Int) ≠ 1 := by
  refine ⟨by decide, by decide, ?_⟩
  exact (c2_register_idempotent_injective (T := 1)
    [.reg "a" (some "f") 1, .reg "a" (some "f") 1, .reg "b" (some "f") 2]
    "a" "b" (some "f") (some "f") 1 2 0 1
    (by decide) (by decide) (by decide) (by decide)).2 (by simp)

/-! ## Parent-index machinery (claims C9 and C4) -/

theorem getLastD_eq_getLast (l : List α) (d : α) (h : l ≠ []) :
    l.getLastD d = l.getLast h := by
  cases l with
  | nil => exact absurd rfl h
  | cons a l => rfl

theorem register_section_parent_eq (sections : List SectionStats) (n : String)
    (f : Option String) (li : Int) (s : Nat) :
    (statGet (register_section sections n f li).1 s).parent_index
      = (statGet sections s).parent_index := by
  rcases register_section_cases sections n f li with h | h <;> rw [h]
  · rw [statGet_append_one]
    by_cases h1 : s < sections.length
    · rw [if_pos h1]
    · rw [if_neg h1]
      by_cases h2 : s = sections.length
      · rw [if_pos h2, statGet_out_of_range sections s (Nat.le_of_not_lt h1)]
        rfl
      · rw [if_neg h2, statGet_out_of_range sections s (Nat.le_of_not_lt h1)]

theorem step_parent_preserved {T : Nat} (σ : State T) (op : Op T) (s : Nat)
    (h : (statGet σ.sections s).parent_index ≠ -1) :
    (statGet (step σ op).1.sections s).parent_index
      = (statGet σ.sections s).parent_index := by
  cases op with
  | reg n f li =>
    exact register_section_parent_eq σ.sections n f li s
  | enter t now si =>
    by_cases hv : si < 0 ∨ (σ.sections.length : Int) ≤ si
    · show (statGet (section_enter σ.sections (σ.threadStacks t) now si).1 s).parent_index = _
      rw [section_enter_invalid hv]
    · by_cases hf : NARWHALYZER_MAX_NESTING_DEPTH ≤ (σ.threadStacks t).length
      · show (statGet (section_enter σ.sections (σ.threadStacks t) now si).1 s).parent_index = _
        rw [section_enter_deep hv hf]
      · show (statGet (section_enter σ.sections (σ.threadStacks t) now si).1 s).parent_index = _
        rw [section_enter_ok hv (Nat.lt_of_not_le hf)]
        show (statGet (modifyIdx σ.sections si.toNat
          (enterUpdate (σ.threadStacks t))) s).parent_index = _
        rw [statGet_modifyIdx]
        split
        · rw [enterUpdate_parent, if_neg (fun hh => h hh.1)]
        · rfl
  | exit t now ci =>
    by_cases hm : ci < 0 ∨ ((σ.threadStacks t).length : Int) - 1 < ci
    · show (statGet (section_exit σ.sections (σ.threadStacks t) now ci).1 s).parent_index = _
      rw [section_exit_miss hm]
    · show (statGet (section_exit σ.sections (σ.threadStacks t) now ci).1 s).parent_index = _
      rw [section_exit_hit hm]
      show (statGet (modifyIdx σ.sections _ _) s).parent_index = _
      rw [statGet_modifyIdx]
      split
      · rw [exitUpdate_parent]
      · rfl

theorem runE_parent_preserved {T : Nat} (ops : List (Op T)) :
    ∀ σ : State T, ∀ s : Nat,
    (statGet σ.sections s).parent_index ≠ -1 →
    (statGet (runE σ ops).1.sections s).parent_index
      = (statGet σ.sections s).parent_index := by
  induction ops with
  | nil => exact fun σ s _ => rfl
  | cons op ops ih =>
    intro σ s h
    have h1 := step_parent_preserved σ op s h
    have h2 := ih (step σ op).1 s (by rw [h1]; exact h)
    exact h2.trans h1

/-! ## Claim C9 -/

/-- **C9.** A section's `parent_index` is set at most once: an enter of
section B on a thread whose stack is non-empty, while B's `parent_index`
is still unset (`-1`), sets it to the section A at the top of that stack
(the enclosing activation); and once `parent_index` is set (`≠ -1`), every
later call sequence — further enters of B under any section, at top
level, or after A has exited — leaves it unchanged. -/
theorem c9_parent_first_writer_wins :
    (∀ (T : Nat) (σ : State T) (t : Fin T) (now : Nat) (si : Int)
      (hv : ¬(si < 0 ∨ (σ.sections.length : Int) ≤ si))
      (hd : (σ.threadStacks t).length < NARWHALYZER_MAX_NESTING_DEPTH)
      (hne : σ.threadStacks t ≠ [])
      (hpar : (statGet σ.sections si.toNat).parent_index = -1),
      (statGet (step σ (.enter t now si)).1.sections si.toNat).parent_index
        = (((σ.threadStacks t).getLast hne).section_index : Int))
  ∧ (∀ (T : Nat) (ops : List (Op T)) (σ : State T) (s : Nat),
      (statGet σ.sections s).parent_index ≠ -1 →
      (statGet (runE σ ops).1.sections s).parent_index
        = (statGet σ.sections s).parent_index) := by
  constructor
  · intro T σ t now si hv hd hne hpar
    show (statGet (section_enter σ.sections (σ.threadStacks t) now si).1
      si.toNat).parent_index = _
    rw [section_enter_ok hv hd]
    show (statGet (modifyIdx σ.sections si.toNat
      (enterUpdate (σ.threadStacks t))) si.toNat).parent_index = _
    rw [statGet_modifyIdx, if_pos ⟨rfl, by omega⟩, enterUpdate_parent,
      if_pos ⟨hpar, List.length_pos.mpr hne⟩, getLastD_eq_getLast _ _ hne]
  · intro T ops σ s h
    exact runE_parent_preserved ops σ s h

/-- Witness for C9: after `a` (index 0) is active on thread 0, the first
enter of `b` (index 1) sets `b`'s parent to 0; exiting everything and
re-entering `b` at top level leaves the parent unchanged. -/
theorem c9_parent_first_writer_wins_witness :
    (statGet (step (runFromInit 1 [.reg "a" (some "f") 1, .reg "b" (some "f") 2,
        .enter 0 0 0]).1 (.enter 0 3 1)).1.sections 1).parent_index
      = ((((runFromInit 1 [.reg "a" (some "f") 1, .reg "b" (some "f") 2,
          .enter 0 0 0]).1.threadStacks 0).getLast (by decide)).section_index : Int)
  ∧ (statGet (runE (step (runFromInit 1 [.reg "a" (some "f") 1,
        .reg "b" (some "f") 2, .enter 0 0 0]).1 (.enter 0 3 1)).1
        [.exit 0 4 1, .exit 0 5 0, .enter 0 6 1]).1.sections 1).parent_index
      = (statGet (step (runFromInit 1 [.reg "a" (some "f") 1,
          .reg "b" (some "f") 2, .enter 0 0 0]).1 (.enter 0 3 1)).1.sections
          1).parent_index := by
  constructor
  · exact c9_parent_first_writer_wins.1 1
      (runFromInit 1 [.reg "a" (some "f") 1, .reg "b" (some "f") 2,
        .enter 0 0 0]).1 0 3 1 (by decide) (by decide) (by decide) (by decide)
  · exact c9_parent_first_writer_wins.2 1 [.exit 0 4 1, .exit 0 5 0, .enter 0 6 1]
      (step (runFromInit 1 [.reg "a" (some "f") 1, .reg "b" (some "f") 2,
        .enter 0 0 0]).1 (.enter 0 3 1)).1 1 (by decide)

/-- Each step either leaves a section's `parent_index` untouched or is a
successful enter of that very section. -/
theorem step_parent_cases {T : Nat} (σ : State T) (op : Op T) (s : Nat) :
    (statGet (step σ op).1.sections s).parent_index
        = (statGet σ.sections s).parent_index
    ∨ 0 < countEntered (step σ op).2.toList s := by
  cases op with
  | reg n f li =>
    exact Or.inl (register_section_parent_eq σ.sections n f li s)
  | enter t now si =>
    by_cases hv : si < 0 ∨ (σ.sections.length : Int) ≤ si
    · left
      show (statGet (section_enter σ.sections (σ.threadStacks t) now si).1
        s).parent_index = _
      rw [section_enter_invalid hv]
    · by_cases hf : NARWHALYZER_MAX_NESTING_DEPTH ≤ (σ.threadStacks t).length
      · left
        show (statGet (section_enter σ.sections (σ.threadStacks t) now si).1
          s).parent_index = _
        rw [section_enter_deep hv hf]
      · by_cases hs : s = si.toNat
        · right
          have hev : (step σ (.enter t now si)).2 = some (.entered si.toNat) := by
            simp only [step, section_enter_ok hv (Nat.lt_of_not_le hf)]
            rw [if_pos (by positivity :
              (0 : Int) ≤ ((σ.threadStacks t).length : Int))]
          rw [hev, Option.toList_some, countEntered_entered, if_pos hs.symm]
          omega
        · left
          show (statGet (section_enter σ.sections (σ.threadStacks t) now si).1
            s).parent_index = _
          rw [section_enter_ok hv (Nat.lt_of_not_le hf)]
          show (statGet (modifyIdx σ.sections si.toNat
            (enterUpdate (σ.threadStacks t))) s).parent_index = _
          rw [statGet_modifyIdx, if_neg (fun hh => hs hh.1)]
  | exit t now ci =>
    left
    by_cases hm : ci < 0 ∨ ((σ.threadStacks t).length : Int) - 1 < ci
    · show (statGet (section_exit σ.sections (σ.threadStacks t) now ci).1
        s).parent_index = _
      rw [section_exit_miss hm]
    · show (statGet (section_exit σ.sections (σ.threadStacks t) now ci).1
        s).parent_index = _
      rw [section_exit_hit hm]
      show (statGet (modifyIdx σ.sections _ _) s).parent_index = _
      rw [statGet_modifyIdx]
      split
      · rw [exitUpdate_parent]
      · rfl

/-- A section whose `parent_index` is set was successfully entered at
least once during the run (or already had its parent set). -/
theorem runE_parent_origin {T : Nat} (ops : List (Op T)) :
    ∀ σ : State T, ∀ s : Nat,
    (statGet (runE σ ops).1.sections s).parent_index ≠ -1 →
    (statGet σ.sections s).parent_index ≠ -1
    ∨ 0 < countEntered (runE σ ops).2 s := by
  induction ops with
  | nil => exact fun σ s h => Or.inl h
  | cons op ops ih =>
    intro σ s h
    have hsplit : countEntered (runE σ (op :: ops)).2 s
        = countEntered (step σ op).2.toList s
          + countEntered (runE (step σ op).1 ops).2 s := by
      rw [show (runE σ (op :: ops)).2
        = (step σ op).2.toList ++ (runE (step σ op).1 ops).2 from rfl,
        countEntered_append]
    rcases ih (step σ op).1 s h with h1 | h1
    · rcases step_parent_cases σ op s with h2 | h2
      · left
        rw [← h2]
        exact h1
      · right
        omega
    · right
      omega

/-- Printed hierarchy nodes are the root itself or sections with a
recorded parent. -/
theorem mem_subtreeNodes (sections : List SectionStats) :
    ∀ (fuel i s : Nat), s ∈ subtreeNodes sections fuel i →
    s = i ∨ (0 : Int) ≤ (statGet sections s).parent_index := by
  intro fuel
  induction fuel with
  | zero =>
    intro i s h
    simp [subtreeNodes] at h
  | succ fuel ih =>
    intro i s h
    rw [show subtreeNodes sections (fuel + 1) i
      = i :: (childrenOf sections i).flatMap (subtreeNodes sections fuel)
      from rfl] at h
    rcases List.mem_cons.mp h with rfl | h'
    · exact Or.inl rfl
    · rw [List.mem_flatMap] at h'
      obtain ⟨c, hc, hs⟩ := h'
      rcases ih c s hs with rfl | hp
      · right
        simp only [childrenOf, List.mem_filter, decide_eq_true_eq] at hc
        obtain ⟨-, hpc⟩ := hc
        omega
      · exact Or.inr hp

/-! ## Claim C4 -/

/-- **C4.** For every reachable registry state at report time (any call
sequence of fewer than `2^64` calls), a section whose `entry_count` is 0
appears in none of the three report parts: not as a flat-summary row
(whatever index order `qsort` produced), not as a node of the
hierarchical view — root or descendant of any printed root — and not as a
section-details entry. -/
theorem c4_zero_entry_excluded {T : Nat} (ops : List (Op T)) (s : Nat)
    (hlen : ops.length < U64MOD)
    (h0 : (statGet (runFromInit T ops).1.sections s).entry_count = 0) :
    (∀ sorted : List Nat, ReportItem.flatRow s
        ∉ print_flat_summary (runFromInit T ops).1.sections sorted)
  ∧ ReportItem.hierNode s ∉ print_hierarchy_view (runFromInit T ops).1.sections
  ∧ ReportItem.detailRow s
      ∉ print_section_details (runFromInit T ops).1.sections := by
  have h0' : (statGet (runE (initState T) ops).1.sections s).entry_count = 0 :=
    h0
  have hparent : (statGet (runFromInit T ops).1.sections s).parent_index
      = -1 := by
    by_contra hp
    rcases runE_parent_origin ops (initState T) s hp with h1 | h1
    · exact h1 rfl
    · obtain ⟨q1, -, -, -⟩ :=
        runE_counters ops (initState T) (stackInv_init T) (counterInv_init T) s
      have hcE : countEntered (runE (initState T) ops).2 s < U64MOD :=
        Nat.lt_of_le_of_lt
          (Nat.le_trans (List.countP_le_length _)
            (runE_events_le ops (initState T)))
          hlen
      have hE0 : (statGet (initState T).sections s).entry_count = 0 := rfl
      rw [hE0, Nat.zero_add, Nat.mod_eq_of_lt hcE] at q1
      omega
  refine ⟨?_, ?_, ?_⟩
  · intro sorted hmem
    unfold print_flat_summary at hmem
    split at hmem
    · simp at hmem
    · simp only [List.mem_cons] at hmem
      rcases hmem with h | h | h
      · exact absurd h (by simp)
      · exact absurd h (by simp)
      · rw [List.mem_map] at h
        obtain ⟨x, hx, hxe⟩ := h
        have hxs : x = s := by
          injection hxe with h2
        subst hxs
        unfold flatRows at hx
        rw [List.mem_filter] at hx
        exact (of_decide_eq_true hx.2) h0
  · intro hmem
    unfold print_hierarchy_view at hmem
    split at hmem
    · simp at hmem
    · simp only [List.mem_cons] at hmem
      rcases hmem with h | h
      · exact absurd h (by simp)
      · rw [List.mem_flatMap] at h
        obtain ⟨r, hr, hmem2⟩ := h
        rw [List.mem_map] at hmem2
        obtain ⟨x, hx, hxe⟩ := hmem2
        have hxs : x = s := by
          injection hxe with h2
        subst hxs
        rcases mem_subtreeNodes _ _ _ _ hx with rfl | hp
        · rw [List.mem_filter] at hr
          exact (of_decide_eq_true hr.2) h0
        · omega
  · intro hmem
    unfold print_section_details at hmem
    simp only [List.mem_cons] at hmem
    rcases hmem with h | h
    · exact absurd h (by simp)
    · rw [List.mem_map] at h
      obtain ⟨x, hx, hxe⟩ := h
      have hxs : x = s := by
        injection hxe with h2
      subst hxs
      rw [List.mem_filter] at hx
      exact (of_decide_eq_true hx.2) h0

/-- Witness for C4: a registered-but-never-entered section is excluded
from all three report parts. -/
theorem c4_zero_entry_excluded_witness :
    ReportItem.flatRow 0
        ∉ print_flat_summary (runFromInit 1 [.reg "a" (some "f") 1]).1.sections [0]
  ∧ ReportItem.hierNode 0
        ∉ print_hierarchy_view (runFromInit 1 [.reg "a" (some "f") 1]).1.sections
  ∧ ReportItem.detailRow 0
        ∉ print_section_details (runFromInit 1 [.reg "a" (some "f") 1]).1.sections := by
  have h := c4_zero_entry_excluded (T := 1) [.reg "a" (some "f") 1] 0
    (by decide) (by decide)
  exact ⟨h.1 [0], h.2.1, h.2.2⟩

/-! ## Claim C3 -/

/-- **C3, counterexample.**  `qsort`'s comparator returns 0 on equal
cumulative times, so the order of tied sections is whatever permutation
the unstable sort produced: for a reachable two-section state with equal
cumulative times, the output `[1, 0]` is a valid `qsort` result, and the
flat summary printed from it lists index 1 before index 0 — the claimed
deterministic ascending-index tie-break does not hold of the code. -/
theorem c3_tie_break_counterexample :
    IsQsortOutput (runFromInit 1 [.reg "a" (some "f") 1, .reg "b" (some "f") 2,
        .enter 0 0 0, .exit 0 0 0, .enter 0 5 1, .exit 0 5 1]).1.sections [1, 0]
  ∧ ¬ (flatRows (runFromInit 1 [.reg "a" (some "f") 1, .reg "b" (some "f") 2,
        .enter 0 0 0, .exit 0 0 0, .enter 0 5 1, .exit 0 5 1]).1.sections
        [1, 0]).Pairwise
      (fun a b =>
        (statGet (runFromInit 1 [.reg "a" (some "f") 1, .reg "b" (some "f") 2,
            .enter 0 0 0, .exit 0 0 0, .enter 0 5 1, .exit 0 5 1]).1.sections
            a).cumulative_time_ns
          = (statGet (runFromInit 1 [.reg "a" (some "f") 1, .reg "b" (some "f") 2,
              .enter 0 0 0, .exit 0 0 0, .enter 0 5 1, .exit 0 5 1]).1.sections
              b).cumulative_time_ns → a < b) := by
  constructor
  · exact ⟨by decide, by decide⟩
  · decide

/-- **C3, amended.**  The flat summary orders the included sections by
cumulative time descending for every index order `qsort` may produce; the
relative order of sections with equal cumulative time is unspecified (the
comparator returns 0 and `qsort` gives no stability guarantee). -/
theorem c3_flat_rows_sorted_descending (sections : List SectionStats)
    (output : List Nat) (h : IsQsortOutput sections output) :
    (flatRows sections output).Pairwise
      (fun a b => (statGet sections b).cumulative_time_ns
        ≤ (statGet sections a).cumulative_time_ns) := by
  have hp := h.2
  have himp : ∀ a b : Nat, compare_sections_by_time sections a b ≤ 0 →
      (statGet sections b).cumulative_time_ns
        ≤ (statGet sections a).cumulative_time_ns := by
    intro a b hab
    unfold compare_sections_by_time at hab
    by_cases h1 : (statGet sections a).cumulative_time_ns
        < (statGet sections b).cumulative_time_ns
    · rw [if_pos h1] at hab
      norm_num at hab
    · exact Nat.le_of_not_lt h1
  unfold flatRows
  exact List.Pairwise.filter _ (hp.imp fun hab => himp _ _ hab)

/-- Witness for C3 (amended) at a reachable two-section state and the
qsort output `[0, 1]`. -/
theorem c3_flat_rows_sorted_descending_witness :
    (flatRows (runFromInit 1 [.reg "a" (some "f") 1, .reg "b" (some "f") 2,
        .enter 0 0 0, .exit 0 0 0, .enter 0 5 1, .exit 0 5 1]).1.sections
        [0, 1]).Pairwise
      (fun a b =>
        (statGet (runFromInit 1 [.reg "a" (some "f") 1, .reg "b" (some "f") 2,
            .enter 0 0 0, .exit 0 0 0, .enter 0 5 1, .exit 0 5 1]).1.sections
            b).cumulative_time_ns
          ≤ (statGet (runFromInit 1 [.reg "a" (some "f") 1, .reg "b" (some "f") 2,
              .enter 0 0 0, .exit 0 0 0, .enter 0 5 1, .exit 0 5 1]).1.sections
              a).cumulative_time_ns) :=
  c3_flat_rows_sorted_descending
    (runFromInit 1 [.reg "a" (some "f") 1, .reg "b" (some "f") 2,
      .enter 0 0 0, .exit 0 0 0, .enter 0 5 1, .exit 0 5 1]).1.sections
    [0, 1] ⟨by decide, by decide⟩

/-! ## Claim C5 -/

/-- **C5, counterexample.**  With one registered but never-entered section
the report does not state that no sections executed (the
"No instrumented sections were executed." branch is unreachable from
`__narwhalyzer_fini`, which only calls `print_flat_summary` when
`section_count > 0`), and the hierarchy and section-details headers are
still printed; with no sections registered at all, nothing is printed,
again without the message. -/
theorem c5_no_sections_message_counterexample :
    (runFromInit 1 [.reg "a" (some "f.c") 1]).1.sections ≠ []
  ∧ (statGet (runFromInit 1 [.reg "a" (some "f.c") 1]).1.sections 0).entry_count
      = 0
  ∧ ReportItem.noSectionsMsg
      ∉ fini_output (runFromInit 1 [.reg "a" (some "f.c") 1]).1.sections [0]
  ∧ ReportItem.hierHeader
      ∈ fini_output (runFromInit 1 [.reg "a" (some "f.c") 1]).1.sections [0]
  ∧ ReportItem.detailsHeader
      ∈ fini_output (runFromInit 1 [.reg "a" (some "f.c") 1]).1.sections [0]
  ∧ fini_output [] [] = [] := by
  decide

/-- **C5, amended.**  If no sections were registered at report time, the
report is omitted entirely (nothing is printed, including the
no-sections message); if sections were registered but none executed, the
report is printed without any no-sections message: the banner, the flat
table header, the hierarchy header and the details header appear, with no
per-section row, node or detail entry. -/
theorem c5_report_with_no_executed_sections (sections : List SectionStats)
    (sorted : List Nat)
    (hall : ∀ s : Nat, s < sections.length →
      (statGet sections s).entry_count = 0) :
    (sections = [] → fini_output sections sorted = [])
  ∧ (sections ≠ [] →
      ReportItem.noSectionsMsg ∉ fini_output sections sorted
      ∧ ReportItem.hierHeader ∈ fini_output sections sorted
      ∧ ReportItem.detailsHeader ∈ fini_output sections sorted
      ∧ (∀ i : Nat, ReportItem.flatRow i ∉ fini_output sections sorted)
      ∧ (∀ i : Nat, ReportItem.hierNode i ∉ fini_output sections sorted)
      ∧ (∀ i : Nat, ReportItem.detailRow i ∉ fini_output sections sorted)) := by
  have hzero : ∀ s : Nat, (statGet sections s).entry_count = 0 := by
    intro s
    by_cases hs : s < sections.length
    · exact hall s hs
    · rw [statGet_out_of_range sections s (Nat.le_of_not_lt hs)]
      rfl
  constructor
  · intro h
    subst h
    rfl
  · intro hne
    have hlen0 : ¬sections.length = 0 := fun hh =>
      hne (List.length_eq_zero.mp hh)
    have hrows : flatRows sections sorted = [] := by
      unfold flatRows
      rw [List.filter_eq_nil]
      intro a _
      simp [hzero a]
    have hroots : ((rootSections sections).filter
        fun r => (statGet sections r).entry_count ≠ 0) = [] := by
      rw [List.filter_eq_nil]
      intro a _
      simp [hzero a]
    have hdetails : ((List.range sections.length).filter
        fun i => (statGet sections i).entry_count ≠ 0) = [] := by
      rw [List.filter_eq_nil]
      intro a _
      simp [hzero a]
    have hfin : fini_output sections sorted
        = [ReportItem.reportBanner, ReportItem.flatHeader,
           ReportItem.hierHeader, ReportItem.detailsHeader,
           ReportItem.endBanner] := by
      unfold fini_output print_flat_summary print_hierarchy_view
        print_section_details
      simp only [if_neg hlen0]
      rw [hrows, hroots, hdetails]
      rfl
    rw [hfin]
    refine ⟨by simp, by simp, by simp, ?_, ?_, ?_⟩ <;>
      intro i <;> simp

/-- Witness for C5 (amended): one registered, never-entered section; and
the empty registry. -/
theorem c5_report_with_no_executed_sections_witness :
    ReportItem.noSectionsMsg
        ∉ fini_output (runFromInit 1 [.reg "a" (some "f.c") 1]).1.sections [0]
  ∧ ReportItem.hierHeader
        ∈ fini_output (runFromInit 1 [.reg "a" (some "f.c") 1]).1.sections [0]
  ∧ ReportItem.flatRow 0
        ∉ fini_output (runFromInit 1 [.reg "a" (some "f.c") 1]).1.sections [0]
  ∧ fini_output [] [] = [] := by
  have h := c5_report_with_no_executed_sections
    (runFromInit 1 [.reg "a" (some "f.c") 1]).1.sections [0] (by decide)
  have h2 := c5_report_with_no_executed_sections [] [] (fun s hs => by simp at hs)
  obtain ⟨hm, hh, -, hf, -, -⟩ := h.2 (by decide)
  exact ⟨hm, hh, hf 0, h2.1 rfl⟩

end Narwhalyzer
